import Mathlib

/-!
Verification of the gravity media-capture extension core against its
natural-language specification.  Each component of the source is shallowly
embedded as executable Lean definitions, and the frozen claims are settled
as theorems about those definitions.
-/

set_option maxHeartbeats 1000000

namespace Walker

/-!
## ShadowDomWalker (source: part_000, class ShadowDomWalker)

A DOM node carries a numeric `nodeType` (1 = ELEMENT_NODE), an optional
shadow root (modelling `node.shadowRoot || node.__gravityShadowRoot`,
itself a node tree), and an ordered list of children.
-/

inductive DomNode where
  | mk (nodeType : Nat) (shadow : Option DomNode) (children : List DomNode)

def DomNode.nodeType : DomNode → Nat
  | .mk t _ _ => t

def DomNode.shadow : DomNode → Option DomNode
  | .mk _ s _ => s

def DomNode.children : DomNode → List DomNode
  | .mk _ _ c => c

/-- Number of nodes of the tree that the walker can reach from a node:
the node itself, its children recursively, and (for element nodes, which are
the only ones whose shadow root is pushed) the shadow tree. -/
def DomNode.reachSize : DomNode → Nat
  | .mk t s c =>
    1 + (match s with
         | none => 0
         | some sr => if t = 1 then sr.reachSize else 0)
      + (c.attach.map (fun x => x.1.reachSize)).sum
termination_by n => sizeOf n
decreasing_by
  all_goals simp only [DomNode.mk.sizeOf_spec, Option.some.sizeOf_spec] at *
  all_goals try have h1 := List.sizeOf_lt_of_mem x.2
  all_goals omega

/-- The nodes pushed on the explicit stack when `n` is popped: its children
(pushed last-to-first, hence traversed first-to-last) followed by, for an
element node, its shadow root (pushed before the children, hence traversed
after them). -/
def pushedOf (n : DomNode) : List DomNode :=
  n.children ++
    (if n.nodeType = 1 then
       (match n.shadow with
        | some sr => [sr]
        | none => [])
     else [])

def stackSize (stack : List DomNode) : Nat :=
  (stack.map DomNode.reachSize).sum

theorem reachSize_eq (t : Nat) (s : Option DomNode) (c : List DomNode) :
    (DomNode.mk t s c).reachSize
      = 1 + (match s with
             | none => 0
             | some sr => if t = 1 then sr.reachSize else 0)
          + (c.map DomNode.reachSize).sum := by
  cases s with
  | none => rw [DomNode.reachSize.eq_1, List.attach_map_coe]
  | some sr => rw [DomNode.reachSize.eq_2, List.attach_map_coe]

theorem reachSize_pos (n : DomNode) : 0 < n.reachSize := by
  cases n with
  | mk t s c =>
    rw [reachSize_eq]
    omega

/-- Popping a node trades it for exactly its reachable subtrees: the
stack measure drops by exactly one per pop. -/
theorem stackSize_pushedOf (n : DomNode) :
    stackSize (pushedOf n) + 1 = n.reachSize := by
  cases n with
  | mk t s c =>
    simp only [pushedOf, stackSize, DomNode.children, DomNode.nodeType,
      DomNode.shadow, List.map_append, List.sum_append]
    rw [reachSize_eq]
    by_cases ht : t = 1
    · cases s with
      | none => simp [ht]; omega
      | some sr => simp [ht]; omega
    · cases s with
      | none => simp [ht]; omega
      | some sr => simp [ht]; omega

theorem stackSize_cons (n : DomNode) (rest : List DomNode) :
    stackSize (n :: rest) = n.reachSize + stackSize rest := by
  simp [stackSize]

theorem stackSize_append (a b : List DomNode) :
    stackSize (a ++ b) = stackSize a + stackSize b := by
  simp [stackSize]

/-- The walker loop (source lines 24-44 of part_000): pops nodes off an
explicit stack while `visited < limit`, counts every popped node in
`visited`, invokes the callback on element nodes only, and schedules the
popped node's children and (for elements) shadow root.  The first component
is the trace of callback invocations, the second the final `visited`
counter. -/
def walkLoop (limit : Nat) : List DomNode → Nat → List DomNode × Nat
  | [], visited => ([], visited)
  | n :: rest, visited =>
    if visited < limit then
      let next := walkLoop limit (pushedOf n ++ rest) (visited + 1)
      (if n.nodeType = 1 then n :: next.1 else next.1, next.2)
    else ([], visited)
termination_by stack _ => stackSize stack
decreasing_by
  have h := stackSize_pushedOf n
  simp only [stackSize_append, stackSize_cons]
  omega

/-- `ShadowDomWalker.walk`: a null root is a no-op; otherwise run the loop
from a one-element stack.  The result is the ordered trace of element nodes
passed to the callback. -/
def walk (root : Option DomNode) (limit : Nat) : List DomNode :=
  match root with
  | none => []
  | some r => (walkLoop limit [r] 0).1

/-- The final value of the `visited` counter (number of popped nodes). -/
def walkVisited (root : Option DomNode) (limit : Nat) : Nat :=
  match root with
  | none => 0
  | some r => (walkLoop limit [r] 0).2

/-- The default node budget of `walk` (source line 18). -/
def defaultLimit : Nat := 20000

/-- Canonical once-per-position enumeration of the element nodes of a tree,
in the traversal order of the walker (node, then children subtrees
left-to-right, then the shadow tree of an element node). -/
def elems : DomNode → List DomNode
  | .mk t s c =>
    (if t = 1 then [DomNode.mk t s c] else [])
      ++ (c.attach.map (fun x => elems x.1)).flatten
      ++ (match s with
          | none => []
          | some sr => if t = 1 then elems sr else [])
termination_by n => sizeOf n
decreasing_by
  all_goals simp only [DomNode.mk.sizeOf_spec, Option.some.sizeOf_spec] at *
  all_goals try have h1 := List.sizeOf_lt_of_mem x.2
  all_goals omega

theorem elems_eq (t : Nat) (s : Option DomNode) (c : List DomNode) :
    elems (DomNode.mk t s c)
      = (if t = 1 then [DomNode.mk t s c] else [])
          ++ (c.map elems).flatten
          ++ (match s with
              | none => []
              | some sr => if t = 1 then elems sr else []) := by
  cases s with
  | none => rw [elems.eq_1, List.attach_map_coe]
  | some sr => rw [elems.eq_2, List.attach_map_coe]

/-- Full (unbudgeted) trace of the walker from a stack. -/
def elemsStack (stack : List DomNode) : List DomNode :=
  (stack.map elems).flatten

theorem elemsStack_cons (n : DomNode) (rest : List DomNode) :
    elemsStack (n :: rest) = elems n ++ elemsStack rest := by
  simp [elemsStack]

theorem elemsStack_append (a b : List DomNode) :
    elemsStack (a ++ b) = elemsStack a ++ elemsStack b := by
  simp [elemsStack]

theorem elems_eq_elemsStack_pushedOf (n : DomNode) :
    elems n = (if n.nodeType = 1 then [n] else []) ++ elemsStack (pushedOf n) := by
  cases n with
  | mk t s c =>
    rw [elems_eq]
    simp only [pushedOf, DomNode.nodeType, DomNode.children, DomNode.shadow,
      elemsStack, List.map_append, List.flatten_append]
    by_cases ht : t = 1
    · cases s with
      | none => simp [ht]
      | some sr => simp [ht]
    · cases s with
      | none => simp [ht]
      | some sr => simp [ht]

/-- The budgeted trace is a prefix of the full once-per-position
enumeration: no element position is ever visited twice. -/
theorem walkLoop_traceIsPrefix (limit : Nat) (stack : List DomNode) (visited : Nat) :
    (walkLoop limit stack visited).1 <+: elemsStack stack := by
  match stack with
  | [] =>
    rw [walkLoop]
    exact List.nil_prefix
  | n :: rest =>
    rw [walkLoop]
    split
    · have ih := walkLoop_traceIsPrefix limit (pushedOf n ++ rest) (visited + 1)
      rw [elemsStack_cons, elems_eq_elemsStack_pushedOf,
        List.append_assoc, ← elemsStack_append]
      by_cases ht : n.nodeType = 1
      · simp only [ht, if_true]
        obtain ⟨tl, htl⟩ := ih
        exact ⟨tl, by simp [← htl]⟩
      · simp only [ht, if_false, List.nil_append]
        exact ih
    · exact List.nil_prefix
termination_by stackSize stack
decreasing_by
  have h := stackSize_pushedOf n
  simp only [stackSize_append, stackSize_cons]
  omega

/-- The visited counter ends at exactly `min limit (start + total
reachable nodes)`: the walk processes every reachable node unless the
budget cuts it off, in which case it stops at exactly the budget. -/
theorem walkLoop_visited (limit : Nat) (stack : List DomNode) (visited : Nat)
    (h : visited ≤ limit) :
    (walkLoop limit stack visited).2 = min limit (visited + stackSize stack) := by
  match stack with
  | [] =>
    rw [walkLoop]
    simp only [stackSize, List.map_nil, List.sum_nil]
    omega
  | n :: rest =>
    rw [walkLoop]
    split
    · rename_i hv
      have ih := walkLoop_visited limit (pushedOf n ++ rest) (visited + 1)
        (by omega)
      simp only [stackSize_append] at ih
      simp only [ih, stackSize_cons]
      have heq := stackSize_pushedOf n
      omega
    · rename_i hv
      have hpos := reachSize_pos n
      simp only [stackSize_cons]
      omega
termination_by stackSize stack
decreasing_by
  have h2 := stackSize_pushedOf n
  simp only [stackSize_append, stackSize_cons]
  omega

/-- Each loop iteration emits at most one trace element, so the trace is
bounded by the remaining budget. -/
theorem walkLoop_length (limit : Nat) (stack : List DomNode) (visited : Nat) :
    (walkLoop limit stack visited).1.length ≤ limit - visited := by
  match stack with
  | [] =>
    rw [walkLoop]
    simp
  | n :: rest =>
    rw [walkLoop]
    split
    · rename_i hv
      have ih := walkLoop_length limit (pushedOf n ++ rest) (visited + 1)
      by_cases ht : n.nodeType = 1 <;>
        simp only [ht, if_true, if_false, List.length_cons] <;> omega
    · simp
termination_by stackSize stack
decreasing_by
  have h := stackSize_pushedOf n
  simp only [stackSize_append, stackSize_cons]
  omega

end Walker

/-- Claim C6: `ShadowDomWalker.walk` is an explicit-stack (non-recursive)
traversal that is a no-op when the root is null, invokes the callback on
each element position at most once (its trace is a prefix of the canonical
once-per-position preorder enumeration `elems`, which pierces shadow
roots), never invokes it more than `limit` times, pops exactly
`min limit (reachable nodes)` nodes before stopping, and defaults the
budget to 20000. -/
theorem C6_walk_budgeted_traversal :
    (∀ limit, Walker.walk none limit = []) ∧
    (∀ r limit, Walker.walk (some r) limit <+: Walker.elems r) ∧
    (∀ r limit, (Walker.walk (some r) limit).length ≤ limit) ∧
    (∀ r limit, Walker.walkVisited (some r) limit = min limit r.reachSize) ∧
    Walker.defaultLimit = 20000 := by
  refine ⟨fun _ => rfl, fun r limit => ?_, fun r limit => ?_,
    fun r limit => ?_, rfl⟩
  · have h := Walker.walkLoop_traceIsPrefix limit [r] 0
    simpa [Walker.walk, Walker.elemsStack] using h
  · have h := Walker.walkLoop_length limit [r] 0
    simpa [Walker.walk] using h
  · have h := Walker.walkLoop_visited limit [r] 0 (Nat.zero_le _)
    simp only [Walker.walkVisited, h, Walker.stackSize, List.map_cons,
      List.map_nil, List.sum_cons, List.sum_nil]
    omega

namespace JsStr

/-!
## String-matching utilities

Executable models of the JavaScript string/regex operations the source
uses.  Case-insensitive regexes are modelled by folding both the subject
and the (ASCII) pattern to lower case.  `.` in a regex is modelled as any
character except CR/LF (JS `.` does not match line terminators).
-/

def lower (s : String) : List Char := s.toList.map Char.toLower

/-- All suffixes of a list, longest first: the candidate match positions a
regex scan considers, including the position at the end of the string. -/
def suffixes : List Char → List (List Char)
  | [] => [[]]
  | c :: rest => (c :: rest) :: suffixes rest

/-- The needle occurs contiguously somewhere in the hay (JS
`String.prototype.includes` / an unanchored regex literal). -/
def containsL (hay needle : List Char) : Bool :=
  (suffixes hay).any (fun s => needle.isPrefixOf s)

def containsS (hay : List Char) (needle : String) : Bool :=
  containsL hay needle.toList

/-- JS `hay.includes(needle)` on strings. -/
def containsStr (hay needle : String) : Bool :=
  containsL hay.toList needle.toList

/-- Matches the regex `pat(\?|$)` at some position: the literal pattern
followed by a question mark or the end of the subject. -/
def extMatch (hay : List Char) (pat : String) : Bool :=
  (suffixes hay).any (fun s =>
    pat.toList.isPrefixOf s &&
      (match s.drop pat.length with
       | [] => true
       | c :: _ => c = '?'))

/-- Matches `pat\d` at some position: the literal pattern followed by at
least one decimal digit (enough for a `\d+` tail). -/
def patDigit (hay : List Char) (pat : String) : Bool :=
  (suffixes hay).any (fun s =>
    pat.toList.isPrefixOf s &&
      (match s.drop pat.length with
       | c :: _ => c.isDigit
       | [] => false))

/-- Matches `[?&]range=\d+-\d+`: a query separator, the literal
`range=`, one or more digits, a dash, one or more digits. -/
def rangeParamMatch (hay : List Char) : Bool :=
  (suffixes hay).any (fun s =>
    match s with
    | c :: rest =>
      (c = '?' || c = '&') &&
        (("range=").toList.isPrefixOf rest &&
          (let after := rest.drop 6
           let d1 := after.takeWhile Char.isDigit
           !d1.isEmpty &&
             (match after.drop d1.length with
              | '-' :: c2 :: _ => c2.isDigit
              | _ => false)))
    | [] => false)

/-- Scan forward over non-line-terminator characters looking for a
position where one of the tail patterns starts (the `.*post` part of a
`pre.*post` regex). -/
def scanNoNl (posts : List (List Char)) : List Char → Bool
  | [] => posts.any (fun p => p.isPrefixOf ([] : List Char))
  | c :: rest =>
    posts.any (fun p => p.isPrefixOf (c :: rest)) ||
      (!(c = '\n' || c = '\r') && scanNoNl posts rest)

/-- Matches `pre.*post₁|pre.*post₂|...` at some position. -/
def dotStarMatch (hay : List Char) (pre : String) (posts : List String) : Bool :=
  (suffixes hay).any (fun s =>
    pre.toList.isPrefixOf s &&
      scanNoNl (posts.map String.toList) (s.drop pre.length))

end JsStr

namespace Hooks

/-!
## looksLikeVideoSegment (source: part_001, lines 453-508)

The media-segment pattern table used by the fetch and XHR wrappers to
decide whether to clone a response.  Each JS regex of the source list is
compiled to an equivalent executable matcher.
-/

def looksLikeVideoSegment (url : String) : Bool :=
  if url = "" then false
  else
    let l := url.toList
    let low := JsStr.lower url
    -- container / segment / audio / manifest extensions, all `/i`
    ([".ts", ".m4s", ".mp4", ".webm", ".mov", ".mkv", ".3gp", ".ogv",
      ".m2ts", ".mp3", ".m4a", ".aac", ".ogg", ".opus", ".flac", ".weba",
      ".m3u8", ".mpd"].any (fun p => JsStr.extMatch low p)) ||
    -- segment naming patterns, all `/i`
    (["/seg", "/seg_", "/seg-", "/segment", "/segment_", "/segment-",
      "_seg", "-seg", "chunk_", "chunk-",
      "frag", "frag_", "frag-", "fragment", "fragment_", "fragment-"].any
        (fun p => JsStr.patDigit low p)) ||
    JsStr.containsS low "init.mp4" ||
    -- YouTube / Google Video CDN (case-sensitive)
    JsStr.containsS l "/videoplayback" ||
    JsStr.containsS l "googlevideo.com" ||
    JsStr.containsS l ".googlevideo.com" ||
    -- query parameter patterns (case-sensitive)
    JsStr.rangeParamMatch l ||
    JsStr.patDigit l "?itag=" || JsStr.patDigit l "&itag=" ||
    JsStr.containsS l "?mime=video" || JsStr.containsS l "&mime=video" ||
    JsStr.containsS l "?mime=audio" || JsStr.containsS l "&mime=audio" ||
    -- Twitter / Instagram / TikTok / Reddit CDNs (case-sensitive)
    JsStr.containsS l "video.twimg.com" ||
    JsStr.dotStarMatch low "fbcdn.net/" [".mp4", ".webm"] ||
    JsStr.containsS l "cdninstagram.com" ||
    JsStr.dotStarMatch l "tiktok.com" ["video"] ||
    JsStr.containsS l "tiktokcdn.com" ||
    JsStr.containsS l "v.redd.it" ||
    JsStr.containsS l "redd-video" ||
    -- Cloudfront media patterns, `/i`
    JsStr.dotStarMatch low ".cloudfront.net/" [".mp4", ".webm", ".ts", ".m4s"]


end Hooks

namespace Capture

/-!
## Captured-track store (source: part_001, lines 134-331 and 525-553)

`capturedTracks` is a JS `Map` (iteration/insertion order preserved),
modelled as an association list; `totalCapturedBytes` is the global byte
counter; `sbCounter` numbers SourceBuffer track keys; `_lastPushedUrl`
backs the pushState navigation filter.  A byte buffer (`ArrayBuffer`) is
its list of bytes.

`getTrackKey`, `getTrackMimeType` and `isVideoUrl` (lines 141-178) are
pure string-parsing functions of the request URL (URL/query-parameter
munging); the store bookkeeping is independent of how they are computed,
so their results are abstracted as a `UrlInfo` value accompanying each
captured response (`mime = none` models a null mime hint).
-/

abbrev Buf := List Nat

structure UrlInfo where
  trackKey : String
  mime : Option String
  isVideo : Bool
deriving DecidableEq

structure Track where
  key : String
  segments : List Buf
  mimeType : String
  totalSize : Nat
  isVideo : Bool
  isAudio : Bool
  firstUrl : Option String
  segmentCount : Nat
  isClean : Bool
deriving DecidableEq

structure St where
  capturedTracks : List (String × Track)
  totalCapturedBytes : Nat
  sbCounter : Nat
  lastPushedUrl : String
deriving DecidableEq

/-- 500MB cap per page (source line 139). -/
def MAX_CAPTURE_BYTES : Nat := 500 * 1024 * 1024

/-- JS `Map.get`. -/
def mapGet : List (String × Track) → String → Option Track
  | [], _ => none
  | (k2, t) :: rest, k => if k2 = k then some t else mapGet rest k

/-- JS `Map.set`: overwrite in place if the key is present, otherwise
append in insertion order. -/
def mapSet : List (String × Track) → String → Track → List (String × Track)
  | [], k, t => [(k, t)]
  | (k2, t2) :: rest, k, t =>
    if k2 = k then (k2, t) :: rest else (k2, t2) :: mapSet rest k t

/-- The fresh raw track registered by `captureResponseData` on the first
chunk for a key (source lines 188-199). -/
def freshRawTrack (info : UrlInfo) (url : String) : Track :=
  { key := info.trackKey
    segments := []
    mimeType := (match info.mime with
                 | some m => m
                 | none => if info.isVideo then ("video/mp4") else ("audio/mp4"))
    totalSize := 0
    isVideo := info.isVideo
    isAudio := !info.isVideo
    firstUrl := some url
    segmentCount := 0
    isClean := false }

/-- Appending one cloned buffer to a track (source lines 204-208 / 320-323):
push the clone, bump `totalSize` and `segmentCount`. -/
def pushSeg (t : Track) (b : Buf) : Track :=
  { t with segments := t.segments ++ [b]
           totalSize := t.totalSize + b.length
           segmentCount := t.segmentCount + 1 }

/-- `captureResponseData(url, buffer, source)` (source lines 180-222): drop
empty buffers, drop everything once the byte counter strictly exceeds the
cap, otherwise create the track if absent and append a byte-identical
clone (`buffer.slice(0)`), bumping all counters.  The `source` tag only
feeds the progress notification. -/
def captureResponseData (info : UrlInfo) (url : String) (buffer : Buf)
    (st : St) : St :=
  if buffer.length = 0 then st
  else if MAX_CAPTURE_BYTES < st.totalCapturedBytes then st
  else
    let st1 :=
      if (mapGet st.capturedTracks info.trackKey).isSome then st
      else { st with capturedTracks :=
               mapSet st.capturedTracks info.trackKey (freshRawTrack info url) }
    match mapGet st1.capturedTracks info.trackKey with
    | none => st1
    | some track =>
      { st1 with
          capturedTracks := mapSet st1.capturedTracks info.trackKey (pushSeg track buffer)
          totalCapturedBytes := st1.totalCapturedBytes + buffer.length }

/-- `MediaSource.prototype.addSourceBuffer` wrapper (source lines 256-291):
allocate the next `mse-...` track key, and register an empty clean track
under it if absent.  Returns the new state and the key recorded on the
SourceBuffer (`sb.__gravityTrackKey`). -/
def addSourceBuffer (mimeType : String) (st : St) : St × String :=
  let isVideo := JsStr.containsStr mimeType ("video")
  let isAudio := JsStr.containsStr mimeType ("audio")
  let trackKey :=
    ("mse-") ++ (if isVideo then ("video") else ("audio")) ++ ("-")
      ++ toString st.sbCounter
  let st2 : St := { st with sbCounter := st.sbCounter + 1 }
  let cleanTrack : Track :=
    { key := trackKey
      segments := []
      mimeType := (((mimeType.splitOn (";")).headD "").trim)
      totalSize := 0
      isVideo := isVideo
      isAudio := isAudio
      firstUrl := none
      segmentCount := 0
      isClean := true }
  if (mapGet st2.capturedTracks trackKey).isSome then (st2, trackKey)
  else
    ({ st2 with capturedTracks := mapSet st2.capturedTracks trackKey cleanTrack },
     trackKey)

/-- `SourceBuffer.prototype.appendBuffer` wrapper (source lines 298-331),
restricted to its effect on `capturedTracks`: if the SourceBuffer carries a
registered track key and the byte counter is still strictly below the cap,
append a clone of the data and bump the counters.  (`trackKey = none`
models a SourceBuffer without a `__gravityTrackKey`, or non-buffer data;
the legacy `mediaSourceMap` bookkeeping of lines 303-312 touches neither
`capturedTracks` nor `totalCapturedBytes` and is not modelled.)  The real
append always proceeds regardless. -/
def appendBuffer (trackKey : Option String) (data : Buf) (st : St) : St :=
  match trackKey with
  | none => st
  | some k =>
    match mapGet st.capturedTracks k with
    | none => st
    | some track =>
      if st.totalCapturedBytes < MAX_CAPTURE_BYTES then
        { st with
            capturedTracks := mapSet st.capturedTracks k (pushSeg track data)
            totalCapturedBytes := st.totalCapturedBytes + data.length }
      else st

/-- `wrapHistory('pushState')` (source lines 530-552): after the real
`history.pushState`, if the resulting location differs from the last
pushed URL, record it and clear the capture state. -/
def pushState (newUrl : String) (st : St) : St :=
  if newUrl ≠ st.lastPushedUrl then
    { st with lastPushedUrl := newUrl
              capturedTracks := []
              totalCapturedBytes := 0 }
  else st

/-- `wrapHistory('replaceState')`: notification only, no state change. -/
def replaceState (_newUrl : String) (st : St) : St := st

/-- One observable capture-layer event in a page's lifetime. -/
inductive Ev where
  | fetchCapture (info : UrlInfo) (url : String) (buffer : Buf)
  | sbAppend (trackKey : Option String) (data : Buf)
  | sbCreate (mimeType : String)
  | push (newUrl : String)
  | replace (newUrl : String)
deriving DecidableEq

def step (st : St) : Ev → St
  | .fetchCapture i u b => captureResponseData i u b st
  | .sbAppend k d => appendBuffer k d st
  | .sbCreate m => (addSourceBuffer m st).1
  | .push u => pushState u st
  | .replace u => replaceState u st

def run (st : St) (evs : List Ev) : St := evs.foldl step st

/-- Initial state at script installation (`_lastPushedUrl` starts at the
current location, source line 529). -/
def init (href : String) : St :=
  { capturedTracks := []
    totalCapturedBytes := 0
    sbCounter := 0
    lastPushedUrl := href }

end Capture

namespace Capture

theorem mapGet_mapSet (m : List (String × Track)) (k k2 : String) (t : Track) :
    mapGet (mapSet m k t) k2 = if k = k2 then some t else mapGet m k2 := by
  induction m with
  | nil => simp [mapGet, mapSet]
  | cons a rest ih =>
    obtain ⟨ka, ta⟩ := a
    by_cases h1 : ka = k
    · subst h1
      by_cases h2 : ka = k2 <;> simp [mapSet, mapGet, h2]
    · by_cases h2 : ka = k2
      · subst h2
        have h3 : ¬(k = ka) := fun h => h1 h.symm
        simp [mapSet, mapGet, h1, h3]
      · simp [mapSet, mapGet, h1, h2, ih]

theorem mapSet_mapSet (m : List (String × Track)) (k : String) (t1 t2 : Track) :
    mapSet (mapSet m k t1) k t2 = mapSet m k t2 := by
  induction m with
  | nil => simp [mapSet]
  | cons a rest ih =>
    obtain ⟨ka, ta⟩ := a
    by_cases h1 : ka = k <;> simp [mapSet, h1, ih]

/-- Canonical form of `captureResponseData`: outside the two drop guards it
appends the clone to the (possibly freshly created) track and bumps the
global counter. -/
theorem captureResponseData_eq (i : UrlInfo) (u : String) (b : Buf) (st : St) :
    captureResponseData i u b st =
      if b.length = 0 then st
      else if MAX_CAPTURE_BYTES < st.totalCapturedBytes then st
      else
        { st with
            capturedTracks := mapSet st.capturedTracks i.trackKey
              (pushSeg ((mapGet st.capturedTracks i.trackKey).getD (freshRawTrack i u)) b)
            totalCapturedBytes := st.totalCapturedBytes + b.length } := by
  unfold captureResponseData
  by_cases h0 : b.length = 0
  · simp [h0]
  · simp only [h0, if_false]
    by_cases h1 : MAX_CAPTURE_BYTES < st.totalCapturedBytes
    · simp [h1]
    · simp only [h1, if_false]
      cases hg : mapGet st.capturedTracks i.trackKey with
      | some t => simp [hg]
      | none =>
        simp only [hg, Option.isSome_none, Bool.false_eq_true, if_false,
          Option.getD_none]
        rw [mapGet_mapSet]
        simp [mapSet_mapSet]

/-- What `addSourceBuffer` does to the store: counters and navigation
state untouched; the track map either untouched (key already present) or
extended at a previously absent key with an empty track. -/
theorem addSourceBuffer_spec (m : String) (st : St) :
    (addSourceBuffer m st).1.totalCapturedBytes = st.totalCapturedBytes ∧
    (addSourceBuffer m st).1.lastPushedUrl = st.lastPushedUrl ∧
    ((addSourceBuffer m st).1.capturedTracks = st.capturedTracks ∨
      ∃ kc tc, mapGet st.capturedTracks kc = none ∧ tc.segments = [] ∧
        tc.totalSize = 0 ∧ tc.segmentCount = 0 ∧
        (addSourceBuffer m st).1.capturedTracks = mapSet st.capturedTracks kc tc) := by
  simp only [addSourceBuffer]
  split <;> split
  all_goals first
    | exact ⟨rfl, rfl, Or.inl rfl⟩
    | (rename_i h1
       refine ⟨rfl, rfl, Or.inr ⟨_, _, ?_, rfl, rfl, rfl, rfl⟩⟩
       exact Option.not_isSome_iff_eq_none.mp (by simpa using h1))

def Track.consistent (t : Track) : Prop :=
  t.totalSize = (t.segments.map List.length).sum ∧
    t.segmentCount = t.segments.length

def St.consistent (st : St) : Prop :=
  ∀ k t, mapGet st.capturedTracks k = some t → t.consistent

theorem pushSeg_consistent {t : Track} (h : t.consistent) (b : Buf) :
    (pushSeg t b).consistent := by
  obtain ⟨h1, h2⟩ := h
  constructor <;> simp [pushSeg, h1, h2]

theorem freshRawTrack_consistent (i : UrlInfo) (u : String) :
    (freshRawTrack i u).consistent := by
  constructor <;> simp [freshRawTrack]

/-- Whether an event is the real-navigation reset (a pushState that lands
on a new URL). -/
def isReset (st : St) : Ev → Bool
  | .push u => u != st.lastPushedUrl
  | _ => false

/-- Every step keeps every existing track, and only ever appends to its
segment list — except the real-navigation reset. -/
theorem step_track_preserved (st : St) (ev : Ev) (k : String) (t : Track)
    (hres : isReset st ev = false)
    (hk : mapGet st.capturedTracks k = some t) :
    ∃ t2, mapGet (step st ev).capturedTracks k = some t2 ∧
      t.segments <+: t2.segments := by
  cases ev with
  | fetchCapture i u b =>
    simp only [step, captureResponseData_eq]
    by_cases h0 : b.length = 0
    · exact ⟨t, by simp [h0, hk], List.prefix_rfl⟩
    · simp only [h0, if_false]
      by_cases h1 : MAX_CAPTURE_BYTES < st.totalCapturedBytes
      · exact ⟨t, by simp [h1, hk], List.prefix_rfl⟩
      · simp only [h1, if_false]
        by_cases h2 : i.trackKey = k
        · refine ⟨pushSeg ((mapGet st.capturedTracks i.trackKey).getD (freshRawTrack i u)) b, ?_, ?_⟩
          · simp [mapGet_mapSet, h2]
          · rw [h2, hk]
            simp [pushSeg]
        · exact ⟨t, by simp [mapGet_mapSet, h2, hk], List.prefix_rfl⟩
  | sbAppend k0 d =>
    cases k0 with
    | none => exact ⟨t, hk, List.prefix_rfl⟩
    | some ks =>
      simp only [step, appendBuffer]
      cases hg : mapGet st.capturedTracks ks with
      | none => exact ⟨t, hk, List.prefix_rfl⟩
      | some tr =>
        by_cases h1 : st.totalCapturedBytes < MAX_CAPTURE_BYTES
        · simp only [h1, if_true]
          by_cases h2 : ks = k
          · subst h2
            rw [hk] at hg
            cases hg
            exact ⟨pushSeg t d, by simp [mapGet_mapSet], by simp [pushSeg]⟩
          · exact ⟨t, by simp [mapGet_mapSet, h2, hk], List.prefix_rfl⟩
        · simp only [h1, if_false]
          exact ⟨t, hk, List.prefix_rfl⟩
  | sbCreate m =>
    simp only [step, addSourceBuffer]
    set kc := ("mse-") ++ (if JsStr.containsStr m ("video") then ("video") else ("audio"))
      ++ ("-") ++ toString st.sbCounter with hkc
    by_cases h1 : (mapGet st.capturedTracks kc).isSome
    · exact ⟨t, by simpa [h1] using hk, List.prefix_rfl⟩
    · have h2 : ¬(kc = k) := by
        intro h
        rw [h, hk] at h1
        simp at h1
      exact ⟨t, by simp [h1, mapGet_mapSet, h2, hk], List.prefix_rfl⟩
  | push u =>
    have hu : ¬(u ≠ st.lastPushedUrl) := by
      simp only [isReset, bne_iff_ne, ne_eq] at hres
      simpa using hres
    exact ⟨t, by simp [step, pushState, hu, hk], List.prefix_rfl⟩
  | replace u => exact ⟨t, hk, List.prefix_rfl⟩

theorem step_consistent {st : St} (h : st.consistent) (ev : Ev) :
    (step st ev).consistent := by
  cases ev with
  | fetchCapture i u b =>
    simp only [step, captureResponseData_eq]
    by_cases h0 : b.length = 0
    · simpa [h0] using h
    · simp only [h0, if_false]
      by_cases h1 : MAX_CAPTURE_BYTES < st.totalCapturedBytes
      · simpa [h1] using h
      · simp only [h1, if_false]
        intro k t hget
        simp only [mapGet_mapSet] at hget
        by_cases h2 : i.trackKey = k
        · simp only [h2, if_true] at hget
          cases hget
          cases hg : mapGet st.capturedTracks k with
          | none => exact pushSeg_consistent (freshRawTrack_consistent i u) b
          | some t0 => exact pushSeg_consistent (h k t0 hg) b
        · simp only [h2, if_false] at hget
          exact h k t hget
  | sbAppend k0 d =>
    cases k0 with
    | none => exact h
    | some ks =>
      simp only [step, appendBuffer]
      cases hg : mapGet st.capturedTracks ks with
      | none => exact h
      | some tr =>
        by_cases h1 : st.totalCapturedBytes < MAX_CAPTURE_BYTES
        · simp only [h1, if_true]
          intro k t hget
          simp only [mapGet_mapSet] at hget
          by_cases h2 : ks = k
          · simp only [h2, if_true] at hget
            cases hget
            exact pushSeg_consistent (h ks tr hg) d
          · simp only [h2, if_false] at hget
            exact h k t hget
        · simpa [h1] using h
  | sbCreate m =>
    obtain ⟨_, _, hcase⟩ := addSourceBuffer_spec m st
    intro k t hget
    simp only [step] at hget
    cases hcase with
    | inl heq =>
      rw [heq] at hget
      exact h k t hget
    | inr hex =>
      obtain ⟨kc, tc, hnone, hs, ht0, hc0, heq⟩ := hex
      rw [heq, mapGet_mapSet] at hget
      split at hget
      · cases hget
        constructor
        · rw [ht0, hs]
          rfl
        · rw [hc0, hs]
          rfl
      · exact h k t hget
  | push u =>
    simp only [step, pushState]
    by_cases hu : u ≠ st.lastPushedUrl
    · intro k t hget
      simp [hu, mapGet] at hget
    · simpa [hu] using h
  | replace u => exact h

theorem run_consistent (evs : List Ev) {st : St} (h : st.consistent) :
    (run st evs).consistent := by
  induction evs generalizing st with
  | nil => exact h
  | cons e es ih => exact ih (step_consistent h e)

theorem init_consistent (href : String) : (init href).consistent := by
  intro k t hget
  simp [init, mapGet] at hget

/-- Size of the chunk an event carries (the in-flight buffer). -/
def chunkSize : Ev → Nat
  | .fetchCapture _ _ b => b.length
  | .sbAppend _ d => d.length
  | _ => 0

def chunkBound (evs : List Ev) : Nat := (evs.map chunkSize).foldr max 0

theorem step_total_le (st : St) (ev : Ev) :
    (step st ev).totalCapturedBytes
      ≤ max st.totalCapturedBytes (MAX_CAPTURE_BYTES + chunkSize ev) := by
  cases ev with
  | fetchCapture i u b =>
    simp only [step, captureResponseData_eq, chunkSize]
    by_cases h0 : b.length = 0
    · simp [h0]
    · simp only [h0, if_false]
      by_cases h1 : MAX_CAPTURE_BYTES < st.totalCapturedBytes
      · simp [h1]
      · simp only [h1, if_false]
        push_neg at h1
        omega
  | sbAppend k0 d =>
    cases k0 with
    | none => exact le_max_left _ _
    | some ks =>
      simp only [step, appendBuffer, chunkSize]
      cases hg : mapGet st.capturedTracks ks with
      | none => exact le_max_left _ _
      | some tr =>
        by_cases h1 : st.totalCapturedBytes < MAX_CAPTURE_BYTES
        · simp only [h1, if_true]
          omega
        · simp only [h1, if_false]
          exact le_max_left _ _
  | sbCreate m =>
    have hspec := (addSourceBuffer_spec m st).1
    simp only [step]
    rw [hspec]
    exact le_max_left _ _
  | push u =>
    simp only [step, pushState]
    split
    · exact le_trans (Nat.zero_le _) (le_max_left _ _)
    · exact le_max_left _ _
  | replace u => exact le_max_left _ _

theorem run_total_le (evs : List Ev) (st : St) :
    (run st evs).totalCapturedBytes
      ≤ max st.totalCapturedBytes (MAX_CAPTURE_BYTES + chunkBound evs) := by
  induction evs generalizing st with
  | nil => simp [run]
  | cons e es ih =>
    have h1 := step_total_le st e
    have h2 := ih (step st e)
    have h3 : chunkSize e ≤ chunkBound (e :: es) := by
      simp only [chunkBound, List.map_cons, List.foldr_cons]
      exact Nat.le_max_left _ _
    have h4 : chunkBound es ≤ chunkBound (e :: es) := by
      simp only [chunkBound, List.map_cons, List.foldr_cons]
      exact Nat.le_max_right _ _
    simp only [run] at *
    simp only [List.foldl_cons]
    omega

theorem capture_dropped_when_exceeded (i : UrlInfo) (u : String) (b : Buf)
    (st : St) (h : MAX_CAPTURE_BYTES < st.totalCapturedBytes) :
    captureResponseData i u b st = st := by
  rw [captureResponseData_eq]
  by_cases h0 : b.length = 0 <;> simp [h0, h]

theorem append_dropped_when_reached (k : Option String) (d : Buf) (st : St)
    (h : MAX_CAPTURE_BYTES ≤ st.totalCapturedBytes) :
    appendBuffer k d st = st := by
  cases k with
  | none => rfl
  | some ks =>
    simp only [appendBuffer]
    cases hg : mapGet st.capturedTracks ks with
    | none => rfl
    | some tr =>
      have h1 : ¬(st.totalCapturedBytes < MAX_CAPTURE_BYTES) := by omega
      simp [h1]

end Capture

/-!
## Claims C2, C5, C10
-/

def wInfo : Capture.UrlInfo :=
  { trackKey := "yt-140", mime := none, isVideo := false }

def wTrack : Capture.Track :=
  Capture.pushSeg (Capture.freshRawTrack wInfo ("https://w/a.mp4")) [1, 2, 3]

def wSt : Capture.St :=
  Capture.run (Capture.init ("https://w/"))
    [Capture.Ev.fetchCapture wInfo ("https://w/a.mp4") [1, 2, 3]]

/-- Claim C10: after every capture operation (fetch/XHR capture,
SourceBuffer append, SourceBuffer registration) every stored track is
consistent — `totalSize` is the sum of its segments' byte lengths and
`segmentCount` is the number of stored segments — and every operation
other than the real-navigation reset keeps each existing track with its
old segment list as a prefix of the new one (append-only: no reordering,
no removal). -/
theorem C10_track_bookkeeping :
    (∀ href evs, Capture.St.consistent (Capture.run (Capture.init href) evs)) ∧
    (∀ st ev k t, Capture.isReset st ev = false →
        Capture.mapGet st.capturedTracks k = some t →
        ∃ t2, Capture.mapGet (Capture.step st ev).capturedTracks k = some t2 ∧
          t.segments <+: t2.segments) :=
  ⟨fun href evs => Capture.run_consistent evs (Capture.init_consistent href),
   fun st ev k t h1 h2 => Capture.step_track_preserved st ev k t h1 h2⟩

theorem C10_track_bookkeeping_witness :
    ∃ t2, Capture.mapGet
        (Capture.step wSt
          (Capture.Ev.fetchCapture wInfo ("https://w/b.mp4") [4, 5])).capturedTracks
        ("yt-140") = some t2 ∧
      wTrack.segments <+: t2.segments :=
  C10_track_bookkeeping.2 wSt
    (Capture.Ev.fetchCapture wInfo ("https://w/b.mp4") [4, 5])
    ("yt-140") wTrack (by rfl) (by rfl)

def cexInfo : Capture.UrlInfo :=
  { trackKey := "yt-248", mime := some ("video/mp4"), isVideo := true }

def cexBig : Capture.Buf := List.replicate Capture.MAX_CAPTURE_BYTES 0

def cexSt1 : Capture.St :=
  Capture.run (Capture.init ("https://c/"))
    [Capture.Ev.fetchCapture cexInfo ("https://c/a.mp4") cexBig]

def cexSt2 : Capture.St :=
  Capture.step cexSt1 (Capture.Ev.fetchCapture cexInfo ("https://c/b.mp4") [1, 1, 1, 1])

/-- Claim C2 as frozen is false at the boundary: after one fetch capture of
exactly 500MB the running total equals the global ceiling — the ceiling is
reached — yet a further fetch capture is still stored (the drop guard of
`captureResponseData` fires only when the total strictly exceeds the cap),
growing the track to two segments and pushing the total past the cap. -/
theorem C2_counterexample :
    cexSt1.totalCapturedBytes = Capture.MAX_CAPTURE_BYTES ∧
    cexSt2.totalCapturedBytes = Capture.MAX_CAPTURE_BYTES + 4 ∧
    (Capture.mapGet cexSt2.capturedTracks ("yt-248")).map
      Capture.Track.segmentCount = some 2 := by
  have hlen : cexBig.length = Capture.MAX_CAPTURE_BYTES := List.length_replicate _ _
  have hMne : ¬(Capture.MAX_CAPTURE_BYTES = 0) := by decide
  have hcond : ¬Capture.MAX_CAPTURE_BYTES
      < (Capture.init ("https://c/")).totalCapturedBytes := by
    have h0 : (Capture.init ("https://c/")).totalCapturedBytes = 0 := rfl
    omega
  have h1 : cexSt1 =
      { capturedTracks :=
          [(("yt-248"), Capture.pushSeg (Capture.freshRawTrack cexInfo ("https://c/a.mp4")) cexBig)]
        totalCapturedBytes := Capture.MAX_CAPTURE_BYTES
        sbCounter := 0
        lastPushedUrl := "https://c/" } := by
    rw [cexSt1, Capture.run, List.foldl_cons, List.foldl_nil, Capture.step,
      Capture.captureResponseData_eq, hlen, if_neg hMne, if_neg hcond]
    rfl
  refine ⟨by rw [h1], ?_, ?_⟩
  · rw [cexSt2, h1]
    rfl
  · rw [cexSt2, h1]
    rfl

/-- Claim C2 (amended): across any capture sequence the running total never
exceeds the 500MB ceiling by more than one in-flight chunk; a fetch/XHR
capture is dropped whenever the total already strictly exceeds the
ceiling; a SourceBuffer append is dropped whenever the total has reached
the ceiling; and no capture ever replaces or evicts stored segments —
every existing track keeps its segment list as a prefix. -/
theorem C2_byte_ceiling :
    (∀ href evs, (Capture.run (Capture.init href) evs).totalCapturedBytes
        ≤ Capture.MAX_CAPTURE_BYTES + Capture.chunkBound evs) ∧
    (∀ i u b st, Capture.MAX_CAPTURE_BYTES < st.totalCapturedBytes →
        Capture.captureResponseData i u b st = st) ∧
    (∀ k d st, Capture.MAX_CAPTURE_BYTES ≤ st.totalCapturedBytes →
        Capture.appendBuffer k d st = st) ∧
    (∀ st ev k t, Capture.isReset st ev = false →
        Capture.mapGet st.capturedTracks k = some t →
        ∃ t2, Capture.mapGet (Capture.step st ev).capturedTracks k = some t2 ∧
          t.segments <+: t2.segments) := by
  refine ⟨fun href evs => ?_,
    fun i u b st h => Capture.capture_dropped_when_exceeded i u b st h,
    fun k d st h => Capture.append_dropped_when_reached k d st h,
    fun st ev k t h1 h2 => Capture.step_track_preserved st ev k t h1 h2⟩
  have h := Capture.run_total_le evs (Capture.init href)
  have hb : (Capture.init href).totalCapturedBytes = 0 := rfl
  omega

def wOver : Capture.St :=
  { capturedTracks := []
    totalCapturedBytes := Capture.MAX_CAPTURE_BYTES + 1
    sbCounter := 0
    lastPushedUrl := "" }

theorem C2_byte_ceiling_witness :
    Capture.captureResponseData cexInfo ("u") [1] wOver = wOver ∧
    Capture.appendBuffer (some ("k")) [1] wOver = wOver ∧
    (∃ t2, Capture.mapGet
        (Capture.step wSt (Capture.Ev.replace ("https://w/x"))).capturedTracks
        ("yt-140") = some t2 ∧ wTrack.segments <+: t2.segments) :=
  ⟨C2_byte_ceiling.2.1 cexInfo ("u") [1] wOver (by decide),
   C2_byte_ceiling.2.2.1 (some ("k")) [1] wOver (by decide),
   C2_byte_ceiling.2.2.2 wSt (Capture.Ev.replace ("https://w/x"))
     ("yt-140") wTrack (by rfl) (by rfl)⟩

def c5St : Capture.St :=
  Capture.run (Capture.init ("https://a/"))
    [Capture.Ev.fetchCapture wInfo ("https://a/v.mp4") [9]]

/-- Claim C5 as frozen is false for a pushState that lands on the current
URL: with one captured track in the store, invoking the wrapped pushState
entry point with the unchanged location leaves the (non-empty) track map
and byte counter untouched — the store is not reset by this pushState
invocation. -/
theorem C5_counterexample :
    (Capture.step c5St (Capture.Ev.push ("https://a/"))).capturedTracks
        = c5St.capturedTracks ∧
    c5St.capturedTracks ≠ [] ∧
    (Capture.step c5St (Capture.Ev.push ("https://a/"))).totalCapturedBytes = 1 := by
  refine ⟨rfl, ?_, rfl⟩
  decide

/-- Claim C5 (amended): the capture store is reset by the wrapped pushState
entry point exactly when the resulting URL differs from the last pushed
URL; a pushState landing on the unchanged URL, the wrapped replaceState
entry point, and every capture operation leave the store unreset (tracks
persist). -/
theorem C5_navigation_reset :
    (∀ st u, u ≠ st.lastPushedUrl →
        Capture.pushState u st =
          { st with lastPushedUrl := u
                    capturedTracks := []
                    totalCapturedBytes := 0 }) ∧
    (∀ st u, u = st.lastPushedUrl → Capture.pushState u st = st) ∧
    (∀ u st, Capture.replaceState u st = st) ∧
    (∀ st ev k t, (∀ u2, ev ≠ Capture.Ev.push u2) →
        Capture.mapGet st.capturedTracks k = some t →
        ∃ t2, Capture.mapGet (Capture.step st ev).capturedTracks k = some t2) := by
  refine ⟨fun st u h => by simp [Capture.pushState, h],
    fun st u h => by simp [Capture.pushState, h],
    fun u st => rfl,
    fun st ev k t hev hk => ?_⟩
  have hres : Capture.isReset st ev = false := by
    cases ev with
    | push u2 => exact absurd rfl (hev u2)
    | fetchCapture i u2 b => rfl
    | sbAppend k2 d => rfl
    | sbCreate m => rfl
    | replace u2 => rfl
  obtain ⟨t2, hg, _⟩ := Capture.step_track_preserved st ev k t hres hk
  exact ⟨t2, hg⟩

theorem C5_navigation_reset_witness :
    Capture.pushState ("https://b/") (Capture.init ("https://a/"))
        = { Capture.init ("https://a/") with
              lastPushedUrl := "https://b/"
              capturedTracks := []
              totalCapturedBytes := 0 } ∧
    Capture.pushState ("https://a/") (Capture.init ("https://a/"))
        = Capture.init ("https://a/") ∧
    (∃ t2, Capture.mapGet
        (Capture.step c5St (Capture.Ev.sbCreate ("video/mp4"))).capturedTracks
        ("yt-140") = some t2) :=
  ⟨C5_navigation_reset.1 (Capture.init ("https://a/")) ("https://b/") (by decide),
   C5_navigation_reset.2.1 (Capture.init ("https://a/")) ("https://a/") rfl,
   C5_navigation_reset.2.2.2 c5St (Capture.Ev.sbCreate ("video/mp4"))
     ("yt-140") (Capture.pushSeg (Capture.freshRawTrack wInfo ("https://a/v.mp4")) [9])
     (fun u2 h => Capture.Ev.noConfusion h) (by rfl)⟩

namespace Hooks

/-!
## Fetch wrapper (source: part_001, lines 368-394)

`window.fetch` is replaced by a wrapper that classifies the URL with
`looksLikeVideoSegment`, calls the original fetch, and returns that very
promise to the caller; when classified, a `.then` observer clones the
settled response and reads its body, feeding `captureResponseData` when
the response is OK, has a body, the clone/read succeeds, and the buffer
exceeds 1000 bytes.  `outcome` is the settled result of the original
fetch (`none` = rejection, swallowed by the trailing `.catch`); `readOk`
models the `clone()`/`arrayBuffer()` step succeeding (its failures are
swallowed by the inner catch handlers).  As in `Capture`, the URL-derived
track attributes are abstracted as `info`. -/

structure FetchResponse where
  ok : Bool
  hasBody : Bool
  body : Capture.Buf
deriving DecidableEq

def wrappedFetch (info : Capture.UrlInfo) (url : String)
    (outcome : Option FetchResponse) (readOk : Bool) (st : Capture.St) :
    Option FetchResponse × Capture.St :=
  let isVideoSegment := looksLikeVideoSegment url
  let st2 :=
    if isVideoSegment then
      match outcome with
      | none => st
      | some resp =>
        if resp.ok && resp.hasBody then
          if readOk then
            if 1000 < resp.body.length then
              Capture.captureResponseData info url resp.body st
            else st
          else st
        else st
    else st
  (outcome, st2)

end Hooks

/-- Claim C4: the wrapped fetch returns to the caller exactly the
settled outcome of the original fetch (interception is observational and
read failures are swallowed: they never alter the returned value and
leave the store untouched), and the capture store changes only when the
URL matches the media-segment pattern table, the response is OK with a
body, the body read succeeds, and the body exceeds 1000 bytes — in which
case the change is exactly routing the body copy to the capture store. -/
theorem C4_fetch_transparent_capture :
    (∀ info url outcome readOk st,
        (Hooks.wrappedFetch info url outcome readOk st).1 = outcome) ∧
    (∀ info url outcome st,
        (Hooks.wrappedFetch info url outcome false st).2 = st) ∧
    (∀ info url outcome readOk st,
        (Hooks.wrappedFetch info url outcome readOk st).2 ≠ st →
          Hooks.looksLikeVideoSegment url = true ∧
          ∃ r, outcome = some r ∧ r.ok = true ∧ r.hasBody = true ∧
            readOk = true ∧ 1000 < r.body.length ∧
            (Hooks.wrappedFetch info url outcome readOk st).2
              = Capture.captureResponseData info url r.body st) := by
  refine ⟨fun info url outcome readOk st => rfl,
    fun info url outcome st => ?_,
    fun info url outcome readOk st h => ?_⟩
  · simp only [Hooks.wrappedFetch]
    by_cases h1 : Hooks.looksLikeVideoSegment url
    · cases outcome with
      | none => simp [h1]
      | some r =>
        by_cases h2 : r.ok && r.hasBody <;> simp [h1, h2]
    · simp [h1]
  · by_cases h1 : Hooks.looksLikeVideoSegment url
    · cases outcome with
      | none => exact absurd (by simp [Hooks.wrappedFetch, h1]) h
      | some r =>
        by_cases h2 : r.ok && r.hasBody
        · by_cases h3 : readOk
          · by_cases h4 : 1000 < r.body.length
            · obtain ⟨hok, hbody⟩ := Bool.and_eq_true_iff.mp h2
              exact ⟨h1, r, rfl, hok, hbody, h3, h4,
                by simp [Hooks.wrappedFetch, h1, h2, h3, h4]⟩
            · exact absurd (by simp [Hooks.wrappedFetch, h1, h2, h3, h4]) h
          · exact absurd (by simp [Hooks.wrappedFetch, h1, h2, h3]) h
        · exact absurd (by simp [Hooks.wrappedFetch, h1, h2]) h
    · exact absurd (by simp [Hooks.wrappedFetch, h1]) h

def wResp : Hooks.FetchResponse :=
  { ok := true, hasBody := true, body := List.replicate 1001 0 }

set_option maxRecDepth 100000 in
theorem C4_fetch_transparent_capture_witness :
    Hooks.looksLikeVideoSegment ("https://cdn.example/seg_0001.ts") = true ∧
    (Hooks.wrappedFetch wInfo ("https://cdn.example/seg_0001.ts")
        (some wResp) true (Capture.init ("https://s/"))).2
      = Capture.captureResponseData wInfo ("https://cdn.example/seg_0001.ts")
          wResp.body (Capture.init ("https://s/")) := by
  have h := C4_fetch_transparent_capture.2.2 wInfo ("https://cdn.example/seg_0001.ts")
    (some wResp) true (Capture.init ("https://s/")) (by decide)
  obtain ⟨ha, r, hr, hok, hb, hro, hlen, heq⟩ := h
  cases hr
  exact ⟨ha, heq⟩

namespace Extract

/-!
## SABR wrapper stripping (source: part_001, lines 1029-1160, 1212-1224)

Buffers are byte lists; `byteAt` is a `DataView`/`Uint8Array` read of the
underlying byte store (reduced mod 256 as in a typed-array view).
-/

/-- Known ISO BMFF box type FourCCs (source lines 1030-1037). -/
def MP4_BOX_TYPES : List String :=
  ["ftyp", "moov", "moof", "mdat", "styp", "sidx", "free", "skip",
   "mvhd", "trak", "mdia", "minf", "stbl", "mvex", "tfhd", "trun",
   "tfdt", "edts", "mdhd", "hdlr", "dinf", "stsd", "stts", "stsc",
   "stsz", "stco", "sgpd", "sbgp", "trex", "mehd", "pssh", "tkhd",
   "elst", "vmhd", "smhd", "dref", "avc1", "av01", "mp4a", "esds",
   "btrt", "colr", "pasp", "uuid", "emsg", "prft"]

def byteAt (b : Capture.Buf) (i : Nat) : Nat := b.getD i 0 % 256

/-- Big-endian 32-bit read (`DataView.getUint32`). -/
def getUint32 (b : Capture.Buf) (i : Nat) : Nat :=
  byteAt b i * 16777216 + byteAt b (i + 1) * 65536
    + byteAt b (i + 2) * 256 + byteAt b (i + 3)

/-- The four bytes at `i` read as an ASCII FourCC. -/
def fourccAt (b : Capture.Buf) (i : Nat) : String :=
  String.mk [Char.ofNat (byteAt b i), Char.ofNat (byteAt b (i + 1)),
    Char.ofNat (byteAt b (i + 2)), Char.ofNat (byteAt b (i + 3))]

/-- The box-header test of `findMP4Start` at one offset (source lines
1069-1083): `[size][fourcc]` with a known FourCC and either a size that
is at least 8 and fits in the remaining bytes, or the 64-bit extended
size marker `size = 1` with at least 16 bytes remaining. -/
def mp4BoxAt (b : Capture.Buf) (i : Nat) : Bool :=
  let size := getUint32 b i
  let cc := fourccAt b (i + 4)
  (MP4_BOX_TYPES.contains cc && 8 ≤ size && size ≤ b.length - i) ||
    (size == 1 && MP4_BOX_TYPES.contains cc && i + 16 ≤ b.length)

/-- `findMP4Start` (source lines 1061-1087): first offset within the
2048-byte window (and at least 8 bytes from the end) holding a valid box
header; `none` models the `-1` result. -/
def findMP4Start (b : Capture.Buf) : Option Nat :=
  (List.range (min (b.length - 8) 2048)).find? (fun i => mp4BoxAt b i)

/-- `findWebMStart` (source lines 1092-1103): first EBML magic
`1A 45 DF A3` within the window. -/
def findWebMStart (b : Capture.Buf) : Option Nat :=
  (List.range (min b.length 2048 - 4)).find? (fun i =>
    (byteAt b i == 0x1A) && (byteAt b (i + 1) == 0x45) &&
      (byteAt b (i + 2) == 0xDF) && (byteAt b (i + 3) == 0xA3))

/-- The fallback Matroska Cluster-ID scan of `extractMediaData` (source
lines 1123-1131): first `1F 43 B6 75` within the window. -/
def findClusterStart (b : Capture.Buf) : Option Nat :=
  (List.range (min (b.length - 4) 2048)).find? (fun j =>
    (byteAt b j == 0x1F) && (byteAt b (j + 1) == 0x43) &&
      (byteAt b (j + 2) == 0xB6) && (byteAt b (j + 3) == 0x75))

/-- Where the media payload starts in one segment (source lines
1118-1136). -/
def mediaStartOf (isWebM : Bool) (b : Capture.Buf) : Option Nat :=
  if isWebM then
    match findWebMStart b with
    | some i => some i
    | none => findClusterStart b
  else findMP4Start b

/-- The per-segment loop of `extractMediaData` (source lines 1114-1157):
skip short segments, truncate recognized segments at their media start,
drop unrecognized ones.  On the first kept segment the source reads bytes
4-7 of the truncated data through a `DataView` for a diagnostic log
(lines 1144-1148); when fewer than 8 bytes remain this read throws a
RangeError, modelled as `Except.error`. -/
def extractGo (isWebM : Bool) : List Capture.Buf → Bool → Except Unit (List Capture.Buf)
  | [], _ => Except.ok []
  | b :: rest, initFound =>
    if b.length < 8 then extractGo isWebM rest initFound
    else
      match mediaStartOf isWebM b with
      | some start =>
        let mediaData := b.drop start
        if 0 < mediaData.length then
          if initFound then
            match extractGo isWebM rest initFound with
            | Except.ok l => Except.ok (mediaData :: l)
            | Except.error e => Except.error e
          else
            if mediaData.length < 8 then Except.error ()
            else
              match extractGo isWebM rest true with
              | Except.ok l => Except.ok (mediaData :: l)
              | Except.error e => Except.error e
        else extractGo isWebM rest initFound
      | none => extractGo isWebM rest initFound

/-- `extractMediaData(segments, mimeType)` (source lines 1109-1160). -/
def extractMediaData (segments : List Capture.Buf) (mimeType : String) :
    Except Unit (List Capture.Buf) :=
  extractGo (JsStr.containsStr mimeType ("webm")) segments false

/-- The clean/raw split of `__gravityDownloadCapturedVideo` (source lines
1212-1224): clean MSE tracks use their segments verbatim, raw tracks go
through `extractMediaData`. -/
def segmentsToUse (isClean : Bool) (segments : List Capture.Buf)
    (mimeType : String) : Except Unit (List Capture.Buf) :=
  if isClean then Except.ok segments else extractMediaData segments mimeType

end Extract

def goodFtyp : Capture.Buf :=
  [0, 0, 0, 16, 0x66, 0x74, 0x79, 0x70, 1, 2, 3, 4, 5, 6, 7, 8]

def badWebMSeg : Capture.Buf := [0, 0, 0, 0, 0x1A, 0x45, 0xDF, 0xA3, 0]

/-- Claim C3 fails on the code: on a 9-byte raw WebM segment whose EBML
signature sits at offset 4 (well inside the 2048-byte window), the
extractor recognizes the signature at offset 4 but then throws instead of
returning the truncated segment: the first-segment diagnostic read of
bytes 4-7 of the 5-byte truncated data is out of range.  Clean segments
do bypass extraction verbatim, and an MP4 segment with wrapper bytes is
truncated byte-identically as claimed. -/
theorem C3_extract_crash_on_short_webm :
    Extract.findWebMStart badWebMSeg = some 4 ∧
    Extract.extractMediaData [badWebMSeg] ("video/webm") = Except.error () ∧
    Extract.extractMediaData [[9, 9, 9] ++ goodFtyp] ("video/mp4")
      = Except.ok [goodFtyp] ∧
    Extract.segmentsToUse true [badWebMSeg] ("video/webm")
      = Except.ok [badWebMSeg] := by
  refine ⟨rfl, rfl, ?_, rfl⟩
  rfl

namespace Buffer

/-!
## Hidden-player auto-buffer (source: part_001, lines 591-1000)

`__gravityForceBuffer` drives the page's main `<video>` through its
timeline.  The player state the function snapshots and mutates is
modelled explicitly; the outcomes of the asynchronous environment (video
lookup, duration validity, whether `play()` is blocked, whether the scrub
body throws) are inputs.  Cancellation (`__gravityAbortBuffer`) merely
breaks the scrub loop and continues through the same restore code
(source lines 850-853), so it is a `completes`-shaped outcome.
-/

structure PlayerState where
  paused : Bool
  muted : Bool
  volume : ℚ
  currentTime : ℚ
  playbackRate : ℚ
  opacity : String
  filter : String
deriving DecidableEq

/-- How the play-start of lines 800-817 resolves: first `play()` call
succeeds, the simulated-click fallback gets playback going, or playback
stays blocked (both attempts reject). -/
inductive PlayOutcome where
  | firstTry
  | viaClickSim
  | blocked
deriving DecidableEq

/-- How the scrub/finalize body of lines 841-904 resolves: runs to
completion, is broken off by the abort flag, or throws. -/
inductive ScrubOutcome where
  | completes
  | aborted
  | raises
deriving DecidableEq

structure Env where
  videoPresent : Bool
  duration : Option ℚ
  playOutcome : PlayOutcome
  scrubOutcome : ScrubOutcome
deriving DecidableEq

inductive BufferResult where
  | errAlreadyBuffering
  | errNoVideo
  | errNoDuration
  | errPlaybackBlocked
  | errScrubException
  | completed
deriving DecidableEq

/-- The restore block (source lines 908-921, duplicated in the catch
handler at 964-977): put back time, mute flag, volume, playback rate and
styles, then pause again if the player was paused. -/
def restorePlayer (snap v : PlayerState) : PlayerState :=
  let v2 : PlayerState :=
    { v with currentTime := snap.currentTime
             muted := snap.muted
             volume := snap.volume
             playbackRate := snap.playbackRate
             opacity := snap.opacity
             filter := snap.filter }
  if snap.paused then { v2 with paused := true } else v2

/-- `__gravityForceBuffer` (source lines 680-982).  Returns the result,
the final player state, and the final `_isAutoBuffering` flag.
Lines 680-691 bail out before any snapshot or mutation; lines 706-719
snapshot the state; lines 793-797 mute, zero the volume and set the
playback rate; lines 800-816 start playback, returning from inside the
`try` — without restoring — when playback stays blocked; the scrub and
finalize phases move `currentTime`; completion and the catch handler
both run the restore block. -/
def forceBuffer (env : Env) (busy : Bool) (video : PlayerState) :
    BufferResult × PlayerState × Bool :=
  if busy then (BufferResult.errAlreadyBuffering, video, busy)
  else if !env.videoPresent then (BufferResult.errNoVideo, video, busy)
  else
    match env.duration with
    | none => (BufferResult.errNoDuration, video, busy)
    | some dur =>
      let snap := video
      let v1 : PlayerState := { video with muted := true, volume := 0, playbackRate := 1 }
      match (if snap.paused then env.playOutcome else PlayOutcome.firstTry) with
      | PlayOutcome.blocked => (BufferResult.errPlaybackBlocked, v1, false)
      | _ =>
        let v2 : PlayerState := { v1 with paused := false }
        let v3 : PlayerState := { v2 with currentTime := dur - 1/2 }
        match env.scrubOutcome with
        | ScrubOutcome.raises =>
          (BufferResult.errScrubException, restorePlayer snap v3, false)
        | _ => (BufferResult.completed, restorePlayer snap v3, false)

/-- On every termination path other than the blocked-playback return
(and the pre-snapshot bailouts, which never mutate), the four
snapshotted player fields — and the playback position — are restored
exactly. -/
theorem forceBuffer_restores (env : Env) (video : PlayerState)
    (h : env.playOutcome = PlayOutcome.blocked → video.paused = false) :
    ((forceBuffer env false video).2.1.paused = video.paused ∧
     (forceBuffer env false video).2.1.muted = video.muted ∧
     (forceBuffer env false video).2.1.volume = video.volume ∧
     (forceBuffer env false video).2.1.playbackRate = video.playbackRate ∧
     (forceBuffer env false video).2.1.currentTime = video.currentTime) := by
  simp only [forceBuffer, Bool.not_eq_true']
  by_cases hv : env.videoPresent
  · simp only [hv, Bool.true_eq_false, if_false]
    cases hd : env.duration with
    | none => exact ⟨rfl, rfl, rfl, rfl, rfl⟩
    | some dur =>
      by_cases hp : video.paused
      · cases hpo : env.playOutcome with
        | blocked => exact absurd (h hpo) (by simp [hp])
        | firstTry =>
          simp only [hp, if_true, hpo]
          cases hs : env.scrubOutcome <;>
            simp [restorePlayer, hp]
        | viaClickSim =>
          simp only [hp, if_true, hpo]
          cases hs : env.scrubOutcome <;>
            simp [restorePlayer, hp]
      · simp only [hp, Bool.false_eq_true, if_false]
        cases hs : env.scrubOutcome <;>
          simp [restorePlayer, hp, Bool.not_eq_true] at *
  · simp only [hv, if_true]
    exact ⟨rfl, rfl, rfl, rfl, rfl⟩

end Buffer

def c1Video : Buffer.PlayerState :=
  { paused := true, muted := false, volume := 1, currentTime := 7,
    playbackRate := 1, opacity := "", filter := "" }

def c1Env : Buffer.Env :=
  { videoPresent := true, duration := some 100,
    playOutcome := Buffer.PlayOutcome.blocked,
    scrubOutcome := Buffer.ScrubOutcome.completes }

/-- Claim C1 fails on the code: with a snapshot taken (video present,
valid duration), an initially paused and unmuted player whose playback
stays blocked makes `__gravityForceBuffer` return the
could-not-start-playback failure from inside the `try` block after
muting, zeroing the volume and forcing the playback rate — and that
early return performs no restoration, leaving the player muted at volume
0 even though the snapshot says unmuted at volume 1. -/
theorem C1_restore_skipped_on_blocked_playback :
    (Buffer.forceBuffer c1Env false c1Video).1
        = Buffer.BufferResult.errPlaybackBlocked ∧
    (Buffer.forceBuffer c1Env false c1Video).2.1.muted = true ∧
    c1Video.muted = false ∧
    (Buffer.forceBuffer c1Env false c1Video).2.1.volume = 0 ∧
    c1Video.volume = 1 := by
  refine ⟨rfl, rfl, rfl, ?_, ?_⟩ <;> norm_num [Buffer.forceBuffer, c1Env, c1Video]

namespace OB

/-!
## OverlayBypass.getMediaUnderCursor (source: overlay-bypass.js, lines 3-144)

An element is its `tagName`, its attributes (`getAttribute`, `none` =
attribute absent), its computed `backgroundImage` (`none` models
`getComputedStyle` throwing, which the source catches and skips), its
shadow root content (`node.shadowRoot || node.__gravityShadowRoot`,
modelled as the shadow tree's child list) and its light children.  A
hit-test stack entry pairs an element with its `parentElement` chain
(nearest ancestor first); the first entry's chain also drives the
second-pass ancestor walk.
-/

inductive OBNode where
  | mk (tag : String) (attrs : List (String × String)) (bg : Option String)
       (shadow : Option (List OBNode)) (children : List OBNode)

def OBNode.tag : OBNode → String
  | .mk t _ _ _ _ => t

def OBNode.attrs : OBNode → List (String × String)
  | .mk _ a _ _ _ => a

def OBNode.bg : OBNode → Option String
  | .mk _ _ b _ _ => b

def OBNode.shadow : OBNode → Option (List OBNode)
  | .mk _ _ _ s _ => s

def OBNode.children : OBNode → List OBNode
  | .mk _ _ _ _ c => c

/-- `getAttribute`: first binding of the attribute name. -/
def getAttr? (n : OBNode) (name : String) : Option String :=
  (n.attrs.find? (fun p => p.1 == name)).map Prod.snd

/-- `querySelector(sel)` over a forest in document order: each node, then
its light descendants (shadow content is not searched by a plain
querySelector). -/
def qselList (p : OBNode → Bool) : List OBNode → Option OBNode
  | [] => none
  | OBNode.mk t a b s c :: rest =>
    if p (OBNode.mk t a b s c) then some (OBNode.mk t a b s c)
    else
      match qselList p c with
      | some m => some m
      | none => qselList p rest
termination_by l => sizeOf l
decreasing_by
  all_goals simp only [OBNode.mk.sizeOf_spec, List.cons.sizeOf_spec] at *
  all_goals omega

/-- Selector `video, audio, img`. -/
def selVAI (n : OBNode) : Bool :=
  n.tag == "VIDEO" || n.tag == "AUDIO" || n.tag == "IMG"

/-- Selector `video, audio, img[src], picture`. -/
def selVAIsrcPic (n : OBNode) : Bool :=
  n.tag == "VIDEO" || n.tag == "AUDIO" ||
    (n.tag == "IMG" && (getAttr? n ("src")).isSome) || n.tag == "PICTURE"

/-- The custom-player tag registry (source lines 6-18, insertion order). -/
def CUSTOM_PLAYER_TAGS : List String :=
  ["SHREDDIT-PLAYER", "SHREDDIT-ASPECT-RATIO", "MEDIA-PLAYER",
   "VIDEO-PLAYER", "BRIGHTCOVE-PLAYER", "JWPLAYER", "AMP-VIDEO",
   "AMP-YOUTUBE", "TWITTER-PLAYER", "LITE-YOUTUBE", "LITE-VIMEO"]

/-- URL-bearing attributes custom players use (source lines 21-25). -/
def MEDIA_URL_ATTRS : List String :=
  ["src", "data-src", "data-video-src", "data-url", "data-video-url",
   "poster", "content-href", "data-embed-url", "data-mp4-url",
   "data-hls-url"]

/-- `_hasMediaUrlAttr` (source lines 131-144): some listed attribute holds
a URL-shaped value that looks like media (known extension, or a known
hint substring, both case-insensitive). -/
def hasMediaUrlAttr (el : OBNode) : Bool :=
  MEDIA_URL_ATTRS.any (fun attr =>
    match getAttr? el attr with
    | none => false
    | some val =>
      (val.startsWith ("http") || val.startsWith ("//")
          || val.startsWith ("blob:")) &&
        (([".mp4", ".webm", ".mov", ".m3u8", ".mpd", ".m4v", ".ogg",
           ".ts", ".m4s"].any (fun e => JsStr.containsS (JsStr.lower val) e)) ||
         (["v.redd.it", "video", "stream", "media", "cdn"].any
            (fun e => JsStr.containsS (JsStr.lower val) e))))

structure StackEl where
  node : OBNode
  ancestors : List OBNode

/-- `el.closest('svg')`: the element itself or its nearest ancestor whose
tag name is `svg` (SVG elements report a lowercase `tagName`). -/
def closestSvg (e : StackEl) : Option OBNode :=
  (e.node :: e.ancestors).find? (fun n => n.tag == "svg")

/-- The CSS background check closing the first pass (source lines 78-84):
a computed background image that is truthy and neither `none` nor
`initial`; a throwing `getComputedStyle` is swallowed. -/
def bgCheck (el : OBNode) : Option OBNode :=
  match el.bg with
  | none => none
  | some bg =>
    if !(bg == "") && !(bg == "none") && !(bg == "initial") then some el
    else none

/-- One first-pass stack probe (source lines 37-85), checks in source
order: standard media tags; `<source>` inside `<picture>` (returns the
parent picture); `<picture>`; canvas; the (dead) uppercase SVG tag
comparison; `closest('svg')`; custom player tags; shadow-root media
query; CSS background. -/
def pass1 (e : StackEl) : Option OBNode :=
  let el := e.node
  if el.tag == "IMG" || el.tag == "VIDEO" || el.tag == "AUDIO" then some el
  else if el.tag == "SOURCE" &&
      (match e.ancestors.head? with
       | some p => p.tag == "PICTURE"
       | none => false) then e.ancestors.head?
  else if el.tag == "PICTURE" then some el
  else if el.tag == "CANVAS" then some el
  else if el.tag == "SVG" then some el
  else
    match closestSvg e with
    | some svgRoot => some svgRoot
    | none =>
      if CUSTOM_PLAYER_TAGS.contains el.tag then some el
      else
        match el.shadow with
        | some sh =>
          (match qselList selVAI sh with
           | some m => some m
           | none => bgCheck el)
        | none => bgCheck el

def firstPass : List StackEl → Option OBNode
  | [] => none
  | e :: rest =>
    match pass1 e with
    | some m => some m
    | none => firstPass rest

/-- The nested-custom-player scan inside a shadow root (source lines
113-116): first registry tag with a match, in registry order. -/
def firstNested (tags : List String) (sh : List OBNode) : Option OBNode :=
  match tags with
  | [] => none
  | t :: rest =>
    match qselList (fun n => n.tag == t) sh with
    | some m => some m
    | none => firstNested rest sh

/-- One level of the second-pass ancestor walk (source lines 93-118):
custom-player tag, media-URL attribute, descendant media query, then the
same query plus nested custom players inside the shadow root. -/
def levelCheck (a : OBNode) : Option OBNode :=
  if CUSTOM_PLAYER_TAGS.contains a.tag then some a
  else if hasMediaUrlAttr a then some a
  else
    match qselList selVAIsrcPic a.children with
    | some m => some m
    | none =>
      match a.shadow with
      | some sh =>
        (match qselList selVAIsrcPic sh with
         | some m => some m
         | none => firstNested CUSTOM_PLAYER_TAGS sh)
      | none => none

/-- The bounded ancestor loop (source lines 90-122): stop when the chain
is exhausted (`ancestor` became null) or after 10 levels. -/
def ancWalk : List OBNode → Nat → Option OBNode
  | [], _ => none
  | a :: rest, depth =>
    if depth < 10 then
      match levelCheck a with
      | some m => some m
      | none => ancWalk rest (depth + 1)
    else none

/-- `getMediaUnderCursor` (source lines 32-126): first pass over the
hit-test stack, then the ancestor walk from the topmost hit element, then
null. -/
def getMediaUnderCursor (stack : List StackEl) : Option OBNode :=
  match firstPass stack with
  | some m => some m
  | none =>
    match stack.head? with
    | none => none
    | some e0 => ancWalk (e0.node :: e0.ancestors) 0

theorem firstPass_none {stack : List StackEl}
    (h : ∀ e ∈ stack, pass1 e = none) : firstPass stack = none := by
  induction stack with
  | nil => rfl
  | cons e rest ih =>
    have he := h e (List.mem_cons_self e rest)
    simp only [firstPass, he]
    exact ih (fun e2 h2 => h e2 (List.mem_cons_of_mem e h2))

theorem ancWalk_none_iff (chain : List OBNode) (d : Nat) (hd : d ≤ 10) :
    (ancWalk chain d = none ↔ ∀ a ∈ chain.take (10 - d), levelCheck a = none) := by
  induction chain generalizing d with
  | nil => simp [ancWalk]
  | cons a rest ih =>
    by_cases h10 : d < 10
    · have htake : (10 - d) = (10 - (d + 1)) + 1 := by omega
      simp only [ancWalk, h10, if_true, htake, List.take_succ_cons]
      cases hl : levelCheck a with
      | some m =>
        simp only [List.mem_cons]
        constructor
        · intro hc
          exact absurd hc (by simp)
        · intro hall
          exact absurd (hall a (Or.inl rfl)) (by simp [hl])
      | none =>
        rw [ih (d + 1) (by omega)]
        constructor
        · intro hall a2 ha2
          cases List.mem_cons.mp ha2 with
          | inl heq => rw [heq]; exact hl
          | inr hmem => exact hall a2 hmem
        · intro hall a2 ha2
          exact hall a2 (List.mem_cons_of_mem a ha2)
    · have hde : d = 10 := by omega
      simp [ancWalk, h10, hde]

theorem ancWalk_take (chain : List OBNode) (d : Nat) :
    ancWalk chain d = ancWalk (chain.take (10 - d)) d := by
  induction chain generalizing d with
  | nil => simp
  | cons a rest ih =>
    by_cases h10 : d < 10
    · have htake : (10 - d) = (10 - (d + 1)) + 1 := by omega
      rw [htake, List.take_succ_cons]
      simp only [ancWalk, h10, if_true]
      cases hl : levelCheck a with
      | some m => rfl
      | none => exact ih (d + 1)
    · have h1 : (10 - d) = 0 := by omega
      simp [ancWalk, h10, h1]

end OB

/-- Claim C9: with an empty hit-test stack the resolver returns null, and
whenever no element of the stack matches any first-pass media rule, the
resolver's result is the bounded ancestor walk from the topmost hit
element: it inspects at most the first 10 nodes of the self-plus-ancestor
chain (the result is unchanged if the chain is truncated to 10), each
level checked for custom-player tag, media-URL-shaped attribute, and
descendant media including inside shadow roots, and it returns null
exactly when all inspected levels fail.  The embedding is a pure
function of the stack snapshot: the probe reads but never writes. -/
theorem C9_cursor_probe_bounded_walk :
    (OB.getMediaUnderCursor [] = none) ∧
    (∀ e0 rest, (∀ e ∈ (e0 :: rest), OB.pass1 e = none) →
      (OB.getMediaUnderCursor (e0 :: rest)
          = OB.ancWalk ((e0.node :: e0.ancestors).take 10) 0 ∧
       (OB.getMediaUnderCursor (e0 :: rest) = none ↔
          ∀ a ∈ (e0.node :: e0.ancestors).take 10, OB.levelCheck a = none))) := by
  refine ⟨rfl, fun e0 rest h => ?_⟩
  have hfp : OB.firstPass (e0 :: rest) = none := OB.firstPass_none h
  have hmain : OB.getMediaUnderCursor (e0 :: rest)
      = OB.ancWalk (e0.node :: e0.ancestors) 0 := by
    simp [OB.getMediaUnderCursor, hfp]
  constructor
  · rw [hmain, OB.ancWalk_take]
  · rw [hmain]
    simpa using OB.ancWalk_none_iff (e0.node :: e0.ancestors) 0 (by omega)

def obDiv : OB.OBNode := OB.OBNode.mk ("DIV") [] (some ("none")) none []

theorem C9_cursor_probe_bounded_walk_witness :
    OB.getMediaUnderCursor [{ node := obDiv, ancestors := [] }] = none := by
  have h := (C9_cursor_probe_bounded_walk.2 { node := obDiv, ancestors := [] } []
    (by
      intro e he
      have : e = { node := obDiv, ancestors := [] } := by
        simpa using he
      rw [this]
      rfl)).2
  rw [h]
  intro a ha
  have : a = obDiv := by simpa using ha
  rw [this]
  simp [OB.levelCheck, obDiv, OB.qselList, OB.hasMediaUrlAttr, OB.getAttr?,
    OB.OBNode.tag, OB.OBNode.children, OB.OBNode.shadow, OB.OBNode.attrs,
    OB.CUSTOM_PLAYER_TAGS, OB.MEDIA_URL_ATTRS]

namespace Detector

/-!
## ImageDetector (source: image-detector.js)

JS string semantics used by the detector, over code-point lists (the
source only manipulates URL/markup strings; surrogate-pair length
differences do not arise in the constructs modelled here).
-/

/-- JS `||` on strings with null/undefined modelled as `""` (both are
falsy exactly like the empty string in every chain the source builds). -/
def jsOr (a b : String) : String := if a = "" then b else a

/-- The ASCII part of the JS `\s` class / `String.prototype.trim`. -/
def isJsWs (c : Char) : Bool :=
  c = ' ' || c = '\t' || c = '\n' || c = '\r' || c = '\x0b' || c = '\x0c'

def jsTrimL (l : List Char) : List Char :=
  ((l.dropWhile isJsWs).reverse.dropWhile isJsWs).reverse

/-- JS `split(',')`. -/
def splitCommaL : List Char → List Char → List (List Char)
  | [], acc => [acc.reverse]
  | c :: rest, acc =>
    if c = ',' then acc.reverse :: splitCommaL rest []
    else splitCommaL rest (c :: acc)

-- JS `split(/\s+/)`: maximal whitespace runs separate the tokens; a
-- leading or trailing run contributes an empty token.
mutual

def splitWsGo : List Char → List Char → List (List Char)
  | [], acc => [acc.reverse]
  | c :: rest, acc =>
    if isJsWs c then acc.reverse :: splitWsSkip rest
    else splitWsGo rest (c :: acc)

def splitWsSkip : List Char → List (List Char)
  | [] => [[]]
  | c :: rest =>
    if isJsWs c then splitWsSkip rest
    else splitWsGo rest [c]

end

def splitWsRuns (l : List Char) : List (List Char) := splitWsGo l []

def natOfDigits (l : List Char) : Nat :=
  l.foldl (fun a c => a * 10 + (c.toNat - 48)) 0

/-- An exact JS number as an unreduced fraction; every denominator the
detector produces is a positive power of ten. -/
structure Frac where
  num : Int
  den : Nat
deriving DecidableEq, Repr

/-- Rational order by cross-multiplication (denominators positive). -/
def fracLT (a b : Frac) : Bool := a.num * (b.den : Int) < b.num * (a.den : Int)

/-- JS `parseFloat` restricted to strings drawn from `[\d.]+` (all the
density regex admits): leading digits, then an optional fraction up to
the second dot; a bare run of dots is NaN, modelled as `none`. -/
def parseFloatDD (l : List Char) : Option Frac :=
  match l.drop (l.takeWhile Char.isDigit).length with
  | '.' :: frac0 =>
    if (l.takeWhile Char.isDigit).isEmpty
        && (frac0.takeWhile Char.isDigit).isEmpty then none
    else some
      { num := (natOfDigits (l.takeWhile Char.isDigit)
            * 10 ^ (frac0.takeWhile Char.isDigit).length
            + natOfDigits (frac0.takeWhile Char.isDigit) : Nat)
        den := 10 ^ (frac0.takeWhile Char.isDigit).length }
  | _ =>
    if (l.takeWhile Char.isDigit).isEmpty then none
    else some { num := (natOfDigits (l.takeWhile Char.isDigit) : Nat), den := 1 }

/-- JS `.slice(0, n)` on a string. -/
def sliceTo (s : String) (n : Nat) : String := String.mk (s.toList.take n)

/-- Two's-complement 32-bit wrap (`| 0` and the implicit shift wrap). -/
def toInt32 (n : Int) : Int :=
  (n + 2147483648) % 4294967296 - 2147483648

/-- `hashString` (source lines 683-691): the rolling JS hash over the
first 500 characters, kept in signed 32-bit range, rendered in decimal. -/
def hashString (s : String) : String :=
  toString ((s.toList.take 500).foldl
    (fun h c => toInt32 (toInt32 (h * 32) - h + c.toNat)) 0)

/-- The numeric value of one srcset descriptor (source lines 133-138):
`^(\d+)w$` parsed as an integer width, `^([\d.]+)x$` parsed as a float
density weighted by 1000, anything else worth 1; `none` is the NaN that
a `[\d.]+` of bare dots produces. -/
def descriptorValue (desc : List Char) : Option Frac :=
  if desc.getLast? = some 'w' && !desc.dropLast.isEmpty
      && desc.dropLast.all Char.isDigit then
    some { num := (natOfDigits desc.dropLast : Nat), den := 1 }
  else if desc.getLast? = some 'x' && !desc.dropLast.isEmpty
      && desc.dropLast.all (fun c => c.isDigit || c = '.') then
    (parseFloatDD desc.dropLast).map
      (fun f => { num := f.num * 1000, den := f.den })
  else some { num := 1, den := 1 }

/-- The descriptor token of one srcset part: `segments[1] || '1x'`. -/
def entryDesc (part : List Char) : List Char :=
  match ((splitWsRuns part).drop 1).head? with
  | some d => if d.isEmpty then ("1x").toList else d
  | none => ("1x").toList

/-- One iteration of the srcset loop: skipped when the URL token is
empty, otherwise the descriptor's value paired with the URL. -/
def entryOf (part : List Char) : Option (Option Frac × String) :=
  if ((splitWsRuns part).headD []).isEmpty then none
  else some (descriptorValue (entryDesc part),
    String.mk ((splitWsRuns part).headD []))

/-- The `(value, url)` pairs the srcset loop iterates over (source lines
122-131): comma-split, trimmed, empty parts dropped; parts with an empty
URL token are skipped. -/
def parseSrcsetEntries (srcsetStr : String) : List (Option Frac × String) :=
  (((splitCommaL srcsetStr.toList []).map jsTrimL).filter
      (fun p => !p.isEmpty)).filterMap entryOf

/-- Does an entry's value beat the current best (`numericValue >
bestDescriptor` in the loop, false for NaN)? -/
def optGT (v : Option Frac) (best : Frac) : Bool :=
  match v with
  | some q => fracLT best q
  | none => false

/-- The selection fold of `parseSrcset` (source lines 126-144),
`bestDescriptor` starting at -1 and `bestUrl` at null. -/
def pickBest : List (Option Frac × String) → Frac → Option String → Option String
  | [], _, bestUrl => bestUrl
  | (v, u) :: rest, bestVal, bestUrl =>
    if optGT v bestVal then pickBest rest (v.getD bestVal) (some u)
    else pickBest rest bestVal bestUrl

/-- `parseSrcset` (source lines 119-146). -/
def parseSrcset (srcsetStr : String) : Option String :=
  if srcsetStr = "" then none
  else pickBest (parseSrcsetEntries srcsetStr) { num := -1, den := 1 } none

/-- `extractAllSrcsetUrls` (source lines 148-153). -/
def extractAllSrcsetUrls (srcsetStr : String) : List String :=
  if srcsetStr = "" then []
  else
    (((splitCommaL srcsetStr.toList []).map
        (fun p => (splitWsRuns (jsTrimL p)).headD [])).filter
      (fun u => !u.isEmpty)).map String.mk

/-- `_isAnimatedFormat` (source lines 662-669). -/
def isAnimatedFormat (url : String) : Bool :=
  if url = "" then false
  else
    let low := JsStr.lower url
    JsStr.extMatch low (".gif") || JsStr.extMatch low (".apng") ||
      JsStr.containsS low "?format=gif" || JsStr.containsS low "&format=gif" ||
      JsStr.containsS low "?fm=gif" || JsStr.containsS low "&fm=gif"


end Detector

namespace Detector

/-- Data of the sibling `<img>` a `<source>` processor queries. -/
structure SibImg where
  natW : Nat
  natH : Nat
  w : Nat
  h : Nat
  alt : String
deriving DecidableEq, Repr

/-- Snapshot of a `<source>` element as `processSourceTag` reads it:
reflected properties, raw attributes (absent modelled `""`, which the
source coerces to anyway via `|| ''`), the parent's tag name (`""` when
detached) and the parent's first `<img>` descendant. -/
structure SourceView where
  eid : Nat
  parentTag : String
  typeAttr : String
  srcsetProp : String
  srcsetAttr : String
  srcProp : String
  srcAttr : String
  sibImg : Option SibImg
deriving DecidableEq, Repr

/-- Snapshot of one element as the detector reads it during a scan of an
unchanged DOM. `eid` stands for object identity (the WeakSet/WeakMap
key). Browser-computed reads that the code wraps in try/catch —
`toDataURL`, `XMLSerializer.serializeToString`, `getComputedStyle` — are
snapshot fields with `none` for the throwing case. `closestContentHref`
is the result of `el.closest('[content-href]')?.getAttribute(...)`
(`""` when absent). -/
structure Elem where
  eid : Nat
  tag : String
  attrs : List (String × String)
  parentTag : String
  sibImg : Option SibImg
  srcsetProp : String
  currentSrc : String
  srcProp : String
  natW : Nat
  natH : Nat
  w : Nat
  h : Nat
  videoW : Nat
  videoH : Nat
  offsetW : Nat
  offsetH : Nat
  alt : String
  title : String
  rectW : Frac
  rectH : Frac
  canvasW : Nat
  canvasH : Nat
  canvasDataUrl : Option String
  svgSerialized : Option String
  bgImage : Option String
  closestContentHref : String
  sourceChildren : List SourceView
deriving DecidableEq, Repr

/-- One mediaMap entry. Fields absent from a given source object
literal are `none`; `elementEid` is `none` for the meta items stored
with `element: null`. -/
structure Item where
  id : String
  type : String
  subtype : String
  url : String
  srcsetVariants : Option (List String)
  width : Frac
  height : Frac
  alt : String
  mimeHint : Option String
  elementEid : Option Nat
deriving DecidableEq, Repr

def natF (n : Nat) : Frac := { num := (n : Int), den := 1 }

/-- JS `||` on non-negative integers (0 is the only falsy value). -/
def jsOrN (a b : Nat) : Nat := if a = 0 then b else a

/-- JS `||` on an exact non-NaN number (value zero is falsy). -/
def jsOrF (a b : Frac) : Frac := if a.num = 0 then b else a

/-- `getAttribute` with JS null coerced to `""` (every consumer of an
attribute in this module immediately `|| ''`s or truthiness-tests it). -/
def attrD (el : Elem) (a : String) : String :=
  (((el.attrs.find? (fun p => p.1 = a)).map Prod.snd).getD "")

abbrev MediaMap := List (String × Item)

def mmGet : MediaMap → String → Option Item
  | [], _ => none
  | (k0, v0) :: rest, k => if k0 = k then some v0 else mmGet rest k

def mmHas (m : MediaMap) (k : String) : Bool := (mmGet m k).isSome

/-- JS `Map.set`: overwrite in place, append when new. -/
def mmSet : MediaMap → String → Item → MediaMap
  | [], k, v => [(k, v)]
  | (k0, v0) :: rest, k, v =>
    if k0 = k then (k, v) :: rest else (k0, v0) :: mmSet rest k v

/-- An insertion guarded by `!this.mediaMap.has(id)`. -/
def guardedInsert (m : MediaMap) (c : String × Item) : MediaMap :=
  if mmHas m c.1 then m else mmSet m c.1 c.2

def ssGet : List (Nat × String) → Nat → Option String
  | [], _ => none
  | (k0, v0) :: rest, k => if k0 = k then some v0 else ssGet rest k

def ssSet : List (Nat × String) → Nat → String → List (Nat × String)
  | [], k, v => [(k, v)]
  | (k0, v0) :: rest, k, v =>
    if k0 = k then (k, v) :: rest else (k0, v0) :: ssSet rest k v

/-- Detector state: `_seen` (WeakSet), `_seenSrc` (WeakMap) and the
shared mediaMap. -/
structure DetState where
  seen : List Nat
  seenSrc : List (Nat × String)
  mediaMap : MediaMap
deriving DecidableEq, Repr

def emptyDet : DetState := { seen := [], seenSrc := [], mediaMap := [] }

/-- Page-level context: `normalizeUrl` (the browser URL parser resolving
against the location, a pure function of its argument on a fixed page),
`encodeURIComponent`, `location.href`, and the `(id, item)` insertions
`processMetaTags` derives — each one guarded by `has(id)` in the source
(lines 521-657) and computed from the document head alone, so for state
evolution the candidate list is a page snapshot. -/
structure PageEnv where
  norm : String → String
  encodeURI : String → String
  locationHref : String
  metaCands : List (String × Item)

/-- `_getSrcKey` (source lines 103-114). -/
def getSrcKey (el : Elem) : String :=
  if el.tag = "IMG" then
    sliceTo (jsOr el.currentSrc (jsOr el.srcProp
      (jsOr (attrD el ("data-src")) el.srcsetProp))) 200
  else if el.tag = "SOURCE" then
    sliceTo (jsOr el.srcProp (jsOr (attrD el ("src"))
      (jsOr el.srcsetProp (attrD el ("srcset"))))) 200
  else if el.tag = "VIDEO" then
    sliceTo (jsOr el.currentSrc (jsOr el.srcProp (attrD el ("poster")))) 200
  else ""

/-- `_getSrcKey(source, 'SOURCE')` as `processPictureTag` calls it. -/
def getSrcKeySV (sv : SourceView) : String :=
  sliceTo (jsOr sv.srcProp (jsOr sv.srcAttr
    (jsOr sv.srcsetProp sv.srcsetAttr))) 200

def Elem.toSourceView (el : Elem) : SourceView :=
  { eid := el.eid, parentTag := el.parentTag, typeAttr := attrD el ("type")
    srcsetProp := el.srcsetProp, srcsetAttr := attrD el ("srcset")
    srcProp := el.srcProp, srcAttr := attrD el ("src"), sibImg := el.sibImg }

/-- The srcset argument of `processImgTag` (line 164):
`img.srcset || img.dataset.srcset`. -/
def imgSrcsetArg (el : Elem) : String :=
  jsOr el.srcsetProp (attrD el ("data-srcset"))

/-- The lazy-load attribute chain (lines 166-173); `dataset.hi_res_src`
reflects the attribute `data-hi_res_src` (underscores survive the
camelCase mapping, dashes do not). -/
def imgDatasetSrc (el : Elem) : String :=
  jsOr (attrD el ("data-src")) (jsOr (attrD el ("data-original"))
    (jsOr (attrD el ("data-lazy-src")) (jsOr (attrD el ("data-full-src"))
      (jsOr (attrD el ("data-original-src")) (jsOr (attrD el ("data-hi_res_src"))
        (jsOr (attrD el ("data-full-src")) (attrD el ("data-zoom-src"))))))))

/-- The resolved URL of `processImgTag` (line 176):
`srcsetUrl || currentSrc || datasetSrc || src`. -/
def imgBestUrl (el : Elem) : String :=
  jsOr ((parseSrcset (imgSrcsetArg el)).getD "")
    (jsOr el.currentSrc (jsOr (imgDatasetSrc el) el.srcProp))

/-- `processImgTag` (source lines 158-218); only the mediaMap changes. -/
def processImgTag (env : PageEnv) (el : Elem) (forceUpdate : Bool)
    (m : MediaMap) : MediaMap :=
  let bestUrl := imgBestUrl el
  if bestUrl = "" || bestUrl.startsWith ("chrome-extension://")
      || bestUrl = env.locationHref then m
  else if bestUrl.startsWith ("data:image") then
    let id := hashString bestUrl
    if !mmHas m id || forceUpdate then
      mmSet m id
        { id := id, type := "image", subtype := "data-uri", url := bestUrl
          srcsetVariants := none
          width := natF (jsOrN el.natW el.w), height := natF (jsOrN el.natH el.h)
          alt := jsOr el.alt ("Image"), mimeHint := none
          elementEid := some el.eid }
    else m
  else if (el.natW ≤ 2 && el.natH ≤ 2) || (el.w ≤ 2 && el.h ≤ 2) then m
  else
    let id := env.norm bestUrl
    if !mmHas m id || forceUpdate then
      let isAnimated := isAnimatedFormat bestUrl
      mmSet m id
        { id := id, type := if isAnimated then "video" else "image"
          subtype := if isAnimated then "gif" else "img", url := bestUrl
          srcsetVariants := some (extractAllSrcsetUrls (imgSrcsetArg el))
          width := natF (jsOrN el.natW el.w), height := natF (jsOrN el.natH el.h)
          alt := jsOr el.alt (jsOr el.title ("Image"))
          mimeHint := if isAnimated then some ("image/gif") else none
          elementEid := some el.eid }
    else m

/-- `processSourceTag` (source lines 239-279). `type.includes` is
case-sensitive. -/
def processSourceTag (env : PageEnv) (sv : SourceView) (forceUpdate : Bool)
    (m : MediaMap) : MediaMap :=
  if sv.parentTag ≠ "PICTURE" then m
  else
    let type := sv.typeAttr
    if type ≠ "" && !type.startsWith ("image/") then m
    else
      let srcsetStr := jsOr sv.srcsetProp sv.srcsetAttr
      let srcStr := jsOr sv.srcProp sv.srcAttr
      let bestUrl := (parseSrcset srcsetStr).getD srcStr
      if bestUrl = "" || bestUrl.startsWith ("chrome-extension://") then m
      else
        let id := env.norm bestUrl
        if !mmHas m id || forceUpdate then
          let width := match sv.sibImg with
            | some s => jsOrN s.natW s.w
            | none => 0
          let height := match sv.sibImg with
            | some s => jsOrN s.natH s.h
            | none => 0
          let formatLabel :=
            if JsStr.containsStr type ("avif") then "avif"
            else if JsStr.containsStr type ("webp") then "webp"
            else "img"
          let altStr := match sv.sibImg with
            | some s => jsOr s.alt ("Image")
            | none => "Image"
          mmSet m id
            { id := id, type := "image", subtype := formatLabel, url := bestUrl
              srcsetVariants := some (extractAllSrcsetUrls srcsetStr)
              width := natF width, height := natF height, alt := altStr
              mimeHint := if type = "" then none else some type
              elementEid := some sv.eid }
        else m

/-- `processVideoTag` (source lines 284-325); the poster insertion has no
`forceUpdate` escape in the source. -/
def processVideoTag (env : PageEnv) (el : Elem) (forceUpdate : Bool)
    (m : MediaMap) : MediaMap :=
  let poster := attrD el ("poster")
  let m1 :=
    if poster ≠ "" && !poster.startsWith ("chrome-extension://") then
      guardedInsert m (env.norm poster,
        { id := env.norm poster, type := "image", subtype := "video-poster"
          url := poster, srcsetVariants := none
          width := natF (jsOrN el.videoW el.offsetW)
          height := natF (jsOrN el.videoH el.offsetH)
          alt := "Video Poster", mimeHint := none, elementEid := some el.eid })
    else m
  let directSrc :=
    if el.currentSrc ≠ "" && !el.currentSrc.startsWith ("blob:") then el.currentSrc
    else if el.srcProp ≠ "" && !el.srcProp.startsWith ("blob:") then el.srcProp
    else ""
  if directSrc ≠ "" then
    let id := env.norm directSrc
    if !mmHas m1 id || forceUpdate then
      mmSet m1 id
        { id := id, type := "video", subtype := "video", url := directSrc
          srcsetVariants := none
          width := natF (jsOrN el.videoW el.offsetW)
          height := natF (jsOrN el.videoH el.offsetH)
          alt := "Video", mimeHint := none, elementEid := some el.eid }
    else m1
  else m1

/-- The `isVideoUrl` test of `processCustomPlayerTag` (lines 359-361):
three case-insensitive regexes, all unanchored literals or
literal-plus-`(\?|$)` alternations. -/
def customIsVideoUrl (val : String) : Bool :=
  let low := JsStr.lower val
  JsStr.extMatch low (".mp4") || JsStr.extMatch low (".webm")
    || JsStr.extMatch low (".mov") || JsStr.extMatch low (".m4v")
    || JsStr.extMatch low (".ogv") || JsStr.extMatch low (".m3u8")
    || JsStr.extMatch low (".mpd")
    || JsStr.containsS low "v.redd.it" || JsStr.containsS low "video"
    || JsStr.containsS low "stream" || JsStr.containsS low "hlsplaylist"
    || JsStr.containsS low "cmaf_" || JsStr.containsS low "dash_"

/-- The `isDirectVideo` test (line 365). -/
def customIsDirectVideo (val : String) : Bool :=
  let low := JsStr.lower val
  JsStr.extMatch low (".mp4") || JsStr.extMatch low (".webm")
    || JsStr.extMatch low (".mov")
    || JsStr.containsS low "cmaf_" || JsStr.containsS low "dash_"

/-- The regex `/v\.redd\.it\/[a-z0-9]+$/i` over the lowered string: the
literal somewhere, followed by a nonempty alphanumeric run reaching the
end. -/
def vredditDashMatch : List Char → Bool
  | [] => false
  | c :: rest =>
    (("v.redd.it/").toList.isPrefixOf (c :: rest)
      && (let r := (c :: rest).drop 10
          !r.isEmpty && r.all (fun d => d.isDigit || ('a' ≤ d && d ≤ 'z'))))
      || vredditDashMatch rest

def VIDEO_ATTRS : List String :=
  ["src", "data-src", "preview", "content-href",
   "data-video-src", "data-url", "data-mp4-url"]

/-- The Reddit DASH quality ladder (line 385) with the alt label the
template `Video ${q.replace('DASH_','').replace('.mp4','p')}` produces
for each fixed entry. -/
def qualityLevels : List (String × String) :=
  [("DASH_1080.mp4", "Video 1080p"), ("DASH_720.mp4", "Video 720p"),
   ("DASH_480.mp4", "Video 480p"), ("DASH_360.mp4", "Video 360p")]

/-- `processCustomPlayerTag` (source lines 331-403); every insertion is
`has`-guarded. -/
def processCustomPlayerTag (env : PageEnv) (el : Elem) (m : MediaMap) :
    MediaMap :=
  let poster := attrD el ("poster")
  let m1 :=
    if poster ≠ "" && !poster.startsWith ("chrome-extension://") then
      guardedInsert m (env.norm poster,
        { id := env.norm poster, type := "image", subtype := "video-poster"
          url := poster, srcsetVariants := none
          width := natF el.offsetW, height := natF el.offsetH
          alt := "Video Poster", mimeHint := none, elementEid := some el.eid })
    else m
  let m2 := VIDEO_ATTRS.foldl (fun acc a =>
    let val := attrD el a
    if val = "" || val.startsWith ("chrome-extension://")
        || val.startsWith ("blob:") then acc
    else if !customIsVideoUrl val then acc
    else
      guardedInsert acc (env.norm val,
        { id := env.norm val, type := "video"
          subtype := if customIsDirectVideo val then "video" else "hls"
          url := val, srcsetVariants := none
          width := natF el.offsetW, height := natF el.offsetH
          alt := "Video", mimeHint := none, elementEid := some el.eid })) m1
  let contentHref := jsOr (attrD el ("content-href")) el.closestContentHref
  if contentHref ≠ "" && vredditDashMatch (JsStr.lower contentHref) then
    qualityLevels.foldl (fun acc q =>
      let dashUrl := contentHref ++ "/" ++ q.1
      guardedInsert acc (env.norm dashUrl,
        { id := env.norm dashUrl, type := "video", subtype := "video"
          url := dashUrl, srcsetVariants := none
          width := natF el.offsetW, height := natF el.offsetH
          alt := q.2, mimeHint := none, elementEid := some el.eid })) m2
  else m2

def svgLit : List Char := ("xmlns=\"http://www.w3.org/2000/svg\"").toList

/-- The `[^>]+xmlns="..."` part of the anchor check: after at least one
character that is not a closing angle bracket, the xmlns literal. -/
def svgScan : List Char → Bool
  | [] => false
  | c :: rest =>
    if c = '>' then false else (svgLit.isPrefixOf rest || svgScan rest)

/-- `source.match(/^<svg[^>]+xmlns="http:\/\/www\.w3\.org\/2000\/svg"/)`
as a boolean. -/
def svgXmlnsMatch (l : List Char) : Bool :=
  ("<svg").toList.isPrefixOf l && svgScan (l.drop 4)

/-- `source.replace(/^<svg/, '<svg xmlns="http://www.w3.org/2000/svg"')`. -/
def svgAddXmlns (s : String) : String :=
  if s.startsWith ("<svg") then
    ("<svg xmlns=\"http://www.w3.org/2000/svg\"") ++ String.mk (s.toList.drop 4)
  else s

def svgXmlHeader : String := "<?xml version=\"1.0\" standalone=\"no\"?>\r\n"

/-- `processSVGTag` (source lines 408-445); a serializer throw is the
`none` snapshot and lands in the catch. -/
def processSVGTag (env : PageEnv) (el : Elem) (m : MediaMap) : MediaMap :=
  if fracLT el.rectW (natF 32) && fracLT el.rectH (natF 32) then m
  else if attrD el ("aria-hidden") = "true" then m
  else if attrD el ("role") = "presentation" || attrD el ("role") = "none" then m
  else
    match el.svgSerialized with
    | none => m
    | some source0 =>
      let source :=
        if svgXmlnsMatch source0.toList then source0 else svgAddXmlns source0
      let blobUrl :=
        ("data:image/svg+xml;charset=utf-8,")
          ++ env.encodeURI (svgXmlHeader ++ source)
      guardedInsert m (hashString source,
        { id := hashString source, type := "image", subtype := "svg"
          url := blobUrl, srcsetVariants := none
          width := jsOrF el.rectW (natF 0), height := jsOrF el.rectH (natF 0)
          alt := jsOr (attrD el ("aria-label")) ("SVG Image")
          mimeHint := none, elementEid := some el.eid })

/-- `processCanvasTag` (source lines 450-473); a tainted-canvas throw is
the `none` snapshot. -/
def processCanvasTag (el : Elem) (m : MediaMap) : MediaMap :=
  if el.canvasW < 32 || el.canvasH < 32 then m
  else
    match el.canvasDataUrl with
    | none => m
    | some dataUrl =>
      if dataUrl.length < 1000 then m
      else
        guardedInsert m (hashString (sliceTo dataUrl 200),
          { id := hashString (sliceTo dataUrl 200), type := "image"
            subtype := "canvas", url := dataUrl, srcsetVariants := none
            width := natF el.canvasW, height := natF el.canvasH
            alt := "Canvas Graphic", mimeHint := none
            elementEid := some el.eid })

def isQuoteChar (c : Char) : Bool := c = '"' || c = Char.ofNat 39

def isBgUrlRunChar (c : Char) : Bool :=
  !(c = '"' || c = Char.ofNat 39 || c = ')')

/-- One attempted match of `/url\(["']?([^"')]+)["']?\)/` at the head of
the list; on success returns the matched text and the remainder. The
quantifiers are greedy; since the run class excludes quotes and the
closing parenthesis, no shorter run can succeed where the maximal one
fails, so this scan is exact. -/
def tryUrlMatch (l : List Char) : Option (List Char × List Char) :=
  if ("url(").toList.isPrefixOf l then
    let after := l.drop 4
    let q1 : List Char :=
      match after with
      | c :: _ => if isQuoteChar c then [c] else []
      | [] => []
    let after1 := after.drop q1.length
    let run := after1.takeWhile isBgUrlRunChar
    if run.isEmpty then none
    else
      match after1.drop run.length with
      | c :: r2 =>
        if c = ')' then
          some (("url(").toList ++ q1 ++ run ++ [')'], r2)
        else if isQuoteChar c then
          match r2 with
          | c2 :: r3 =>
            if c2 = ')' then
              some (("url(").toList ++ q1 ++ run ++ [c, ')'], r3)
            else none
          | [] => none
        else none
      | [] => none
  else none

/-- Left-to-right global scan for `bg.match(/url\(...\)/g)`: resume after
each match, advance one character otherwise. The fuel equals the list
length; every step consumes at least one character, so it never runs
out before the scan finishes. -/
def bgScanFuel : Nat → List Char → List (List Char)
  | 0, _ => []
  | _ + 1, [] => []
  | f + 1, c :: rest =>
    match tryUrlMatch (c :: rest) with
    | some (mt, remaining) => mt :: bgScanFuel f remaining
    | none => bgScanFuel f rest

def bgMatches (l : List Char) : List (List Char) := bgScanFuel l.length l

/-- `.replace(/^['"]|['"]$/g, '')`: one leading and one trailing quote
character removed. -/
def stripQuotes (l : List Char) : List Char :=
  let l1 := match l with
    | c :: r => if isQuoteChar c then r else l
    | [] => []
  match l1.getLast? with
  | some c => if isQuoteChar c then l1.dropLast else l1
  | none => l1

/-- `processCSSBackground` (source lines 478-515); a `getComputedStyle`
throw is the `none` snapshot. -/
def processCSSBackground (env : PageEnv) (el : Elem) (m : MediaMap) :
    MediaMap :=
  match el.bgImage with
  | none => m
  | some bg =>
    if bg = "" || bg = "none" || !JsStr.containsStr bg ("url(") then m
    else
      (bgMatches bg.toList).foldl (fun acc mt =>
        let extracted := String.mk (stripQuotes ((mt.drop 4).dropLast))
        if extracted = "" || extracted.startsWith ("chrome-extension://") then acc
        else if extracted.startsWith ("data:image/svg") then acc
        else if fracLT el.rectW (natF 32) || fracLT el.rectH (natF 32) then acc
        else
          guardedInsert acc (env.norm extracted,
            { id := env.norm extracted, type := "image", subtype := "css-bg"
              url := extracted, srcsetVariants := none
              width := jsOrF el.rectW (natF 0), height := jsOrF el.rectH (natF 0)
              alt := "CSS Background", mimeHint := none
              elementEid := some el.eid })) m

/-- `processMetaTags` (source lines 521-657) folds its `has`-guarded
insertions, all computed from the document head, over the mediaMap. -/
def processMetaTags (env : PageEnv) (m : MediaMap) : MediaMap :=
  env.metaCands.foldl guardedInsert m

def CSS_BG_TAGS : List String :=
  ["DIV", "SECTION", "ARTICLE", "MAIN", "HEADER", "FOOTER",
   "ASIDE", "FIGURE", "FIGCAPTION", "A", "LI", "TD", "TH",
   "SPAN", "P", "NAV", "UL", "OL", "PICTURE"]

/-- One iteration of the `processPictureTag` loop (source lines
227-233): a not-yet-seen `<source>` child is marked seen, its src key
recorded, and routed to `processSourceTag`. -/
def pictureStep (env : PageEnv) (s : DetState) (sv : SourceView) : DetState :=
  if s.seen.contains sv.eid then s
  else
    { seen := sv.eid :: s.seen
      seenSrc := ssSet s.seenSrc sv.eid (getSrcKeySV sv)
      mediaMap := processSourceTag env sv false s.mediaMap }

/-- `processPictureTag` (source lines 223-234). -/
def processPictureTag (env : PageEnv) (el : Elem) (st : DetState) :
    DetState :=
  el.sourceChildren.foldl (pictureStep env) st

/-- `processNode` (source lines 52-99). The walker only delivers
ELEMENT_NODEs, so the nodeType early-out is vacuous here. The per-tag
`if`s are not exclusive in the source: a PICTURE is both picture- and
CSS-background-processed, hence the sequential composition. The
CUSTOM_PLAYER_TAGS set is the OverlayBypass set (the fallback literal
has the same members). -/
def processNode (env : PageEnv) (el : Elem) (st : DetState) : DetState :=
  let tag := el.tag
  if st.seen.contains el.eid then
    let key := getSrcKey el
    if key ≠ "" && ssGet st.seenSrc el.eid ≠ some key then
      let st1 := { st with seenSrc := ssSet st.seenSrc el.eid key }
      let st2 := if tag = "IMG" then
          { st1 with mediaMap := processImgTag env el true st1.mediaMap }
        else st1
      let st3 := if tag = "SOURCE" then
          { st2 with
            mediaMap := processSourceTag env el.toSourceView true st2.mediaMap }
        else st2
      if tag = "VIDEO" then
        { st3 with mediaMap := processVideoTag env el true st3.mediaMap }
      else st3
    else st
  else
    let s0 := { st with seen := el.eid :: st.seen }
    let s1 := if tag = "IMG" then
        let t := { s0 with seenSrc := ssSet s0.seenSrc el.eid (getSrcKey el) }
        { t with mediaMap := processImgTag env el false t.mediaMap }
      else s0
    let s2 := if tag = "PICTURE" then processPictureTag env el s1 else s1
    let s3 := if tag = "SOURCE" then
        let t := { s2 with seenSrc := ssSet s2.seenSrc el.eid (getSrcKey el) }
        { t with mediaMap := processSourceTag env el.toSourceView false t.mediaMap }
      else s2
    let s4 := if tag = "SVG" then
        { s3 with mediaMap := processSVGTag env el s3.mediaMap }
      else s3
    let s5 := if tag = "CANVAS" then
        { s4 with mediaMap := processCanvasTag el s4.mediaMap }
      else s4
    let s6 := if tag = "VIDEO" then
        let t := { s5 with seenSrc := ssSet s5.seenSrc el.eid (getSrcKey el) }
        { t with mediaMap := processVideoTag env el false t.mediaMap }
      else s5
    let s7 := if OB.CUSTOM_PLAYER_TAGS.contains tag then
        { s6 with mediaMap := processCustomPlayerTag env el s6.mediaMap }
      else s6
    if CSS_BG_TAGS.contains tag then
      { s7 with mediaMap := processCSSBackground env el s7.mediaMap }
    else s7

/-- One `GravityScanner.scan` (overlay-bypass lines 357-366):
`imageDetector.scan(document)` walks the document — on an unchanged DOM
the walker delivers the same element trace each time — feeding every
element to `processNode`, then runs the meta-tag pass (root is the
document). -/
def scanDoc (env : PageEnv) (trace : List Elem) (st : DetState) : DetState :=
  let st1 := trace.foldl (fun s el => processNode env el s) st
  { st1 with mediaMap := processMetaTags env st1.mediaMap }

end Detector

namespace Detector

lemma fracLT_irrefl (a : Frac) : fracLT a a = false := by
  simp [fracLT]

lemma fracLT_asymm {a b : Frac} (h : fracLT a b = true) : fracLT b a = false := by
  simp only [fracLT, decide_eq_true_eq, decide_eq_false_iff_not, not_lt] at *
  omega

lemma fracLT_trans {a b c : Frac} (ha : 0 < a.den) (hb : 0 < b.den)
    (hc : 0 < c.den)
    (h1 : fracLT a b = true) (h2 : fracLT b c = true) : fracLT a c = true := by
  simp only [fracLT, decide_eq_true_eq] at *
  have hbd : (0 : Int) < (b.den : Int) := by exact_mod_cast hb
  have had : (0 : Int) < (a.den : Int) := by exact_mod_cast ha
  have hcd : (0 : Int) < (c.den : Int) := by exact_mod_cast hc
  nlinarith [mul_lt_mul_of_pos_right h1 hcd, mul_lt_mul_of_pos_right h2 had]

/-- The selection fold keeps the first entry of maximal value: the result
either stays at the incoming candidate with no entry beating the incoming
best, or it is the URL of an entry whose value beats the incoming best
and is beaten by no entry. -/
lemma pickBest_spec (entries : List (Option Frac × String)) (bv : Frac)
    (bu : Option String) (hbv : 0 < bv.den)
    (hwf : ∀ p ∈ entries, ∀ q, p.1 = some q → 0 < q.den) :
    (pickBest entries bv bu = bu ∧ ∀ p ∈ entries, optGT p.1 bv = false) ∨
    (∃ q u, (some q, u) ∈ entries ∧ 0 < q.den ∧ fracLT bv q = true ∧
      pickBest entries bv bu = some u ∧
      ∀ p ∈ entries, optGT p.1 q = false) := by
  induction entries generalizing bv bu with
  | nil => exact Or.inl ⟨rfl, by simp⟩
  | cons hd tl ih =>
    obtain ⟨v, u⟩ := hd
    by_cases h : optGT v bv = true
    · cases v with
      | none => simp [optGT] at h
      | some q =>
        have hq : 0 < q.den := hwf (some q, u) (by simp) q rfl
        have hred : pickBest ((some q, u) :: tl) bv bu = pickBest tl q (some u) := by
          simp [pickBest, h, Option.getD]
        have hwf' : ∀ p ∈ tl, ∀ w, p.1 = some w → 0 < w.den := by
          intro p hp w hw
          exact hwf p (List.mem_cons_of_mem _ hp) w hw
        have hbvq : fracLT bv q = true := by simpa [optGT] using h
        rcases ih q (some u) hq hwf' with ⟨heq, hall⟩ | ⟨q2, u2, hmem, hq2, hqq2, heq, hall⟩
        · refine Or.inr ⟨q, u, by simp, hq, hbvq, by rw [hred, heq], ?_⟩
          intro p hp
          rcases List.mem_cons.mp hp with rfl | hp'
          · simpa [optGT] using fracLT_irrefl q
          · exact hall p hp'
        · refine Or.inr ⟨q2, u2, List.mem_cons_of_mem _ hmem, hq2,
            fracLT_trans hbv hq hq2 hbvq hqq2, by rw [hred, heq], ?_⟩
          intro p hp
          rcases List.mem_cons.mp hp with rfl | hp'
          · simpa [optGT] using fracLT_asymm hqq2
          · exact hall p hp'
    · have hred : pickBest ((v, u) :: tl) bv bu = pickBest tl bv bu := by
        simp [pickBest, h]
      have hwf' : ∀ p ∈ tl, ∀ w, p.1 = some w → 0 < w.den := by
        intro p hp w hw
        exact hwf p (List.mem_cons_of_mem _ hp) w hw
      rcases ih bv bu hbv hwf' with ⟨heq, hall⟩ | ⟨q2, u2, hmem, hq2, hbvq2, heq, hall⟩
      · refine Or.inl ⟨by rw [hred, heq], ?_⟩
        intro p hp
        rcases List.mem_cons.mp hp with rfl | hp'
        · simpa using h
        · exact hall p hp'
      · refine Or.inr ⟨q2, u2, List.mem_cons_of_mem _ hmem, hq2, hbvq2,
          by rw [hred, heq], ?_⟩
        intro p hp
        rcases List.mem_cons.mp hp with rfl | hp'
        · cases v with
          | none => simp [optGT]
          | some w =>
            have hw : 0 < w.den := hwf (some w, u) (by simp) w rfl
            simp only [optGT]
            by_contra hc
            have hc' : fracLT q2 w = true := by
              revert hc
              cases fracLT q2 w <;> simp
            have : fracLT bv w = true := fracLT_trans hbv hq2 hw hbvq2 hc'
            simp [optGT, this] at h
        · exact hall p hp'

lemma parseFloatDD_den_pos {l : List Char} {f : Frac}
    (h : parseFloatDD l = some f) : 0 < f.den := by
  unfold parseFloatDD at h
  split at h
  · split at h
    · exact absurd h (by simp)
    · cases Option.some.inj h
      exact pow_pos (by omega) _
  · split at h
    · exact absurd h (by simp)
    · cases Option.some.inj h
      exact Nat.one_pos

lemma descriptorValue_den_pos {d : List Char} {q : Frac}
    (h : descriptorValue d = some q) : 0 < q.den := by
  unfold descriptorValue at h
  split at h
  · cases Option.some.inj h
    exact Nat.one_pos
  · split at h
    · rcases Option.map_eq_some'.mp h with ⟨f, hf, hq⟩
      have hd := parseFloatDD_den_pos hf
      rw [← hq]
      exact hd
    · cases Option.some.inj h
      exact Nat.one_pos

lemma parseSrcsetEntries_wf (s : String) :
    ∀ p ∈ parseSrcsetEntries s, ∀ q, p.1 = some q → 0 < q.den := by
  intro p hp q hq
  unfold parseSrcsetEntries at hp
  rcases List.mem_filterMap.mp hp with ⟨part, _, hf⟩
  unfold entryOf at hf
  split at hf
  · exact absurd hf (by simp)
  · cases Option.some.inj hf
    exact descriptorValue_den_pos hq

lemma parseSrcsetEntries_url_ne (s : String) :
    ∀ p ∈ parseSrcsetEntries s, p.2 ≠ "" := by
  intro p hp
  unfold parseSrcsetEntries at hp
  rcases List.mem_filterMap.mp hp with ⟨part, _, hf⟩
  unfold entryOf at hf
  split at hf
  · exact absurd hf (by simp)
  · rename_i hurl
    cases Option.some.inj hf
    simp only [ne_eq]
    intro hc
    have hnil : (splitWsRuns part).headD [] = [] := by
      have := congrArg String.toList hc
      simpa using this
    exact hurl (by simpa using hnil)

/-- `parseSrcset` returns the URL of an entry of maximal value. -/
lemma parseSrcset_max (s : String) (u : String)
    (h : parseSrcset s = some u) :
    ∃ q, 0 < q.den ∧ (some q, u) ∈ parseSrcsetEntries s ∧
      ∀ p ∈ parseSrcsetEntries s, optGT p.1 q = false := by
  unfold parseSrcset at h
  split at h
  · exact absurd h (by simp)
  · rcases pickBest_spec (parseSrcsetEntries s) { num := -1, den := 1 } none
      Nat.one_pos (parseSrcsetEntries_wf s) with ⟨heq, _⟩ | ⟨q, u2, hmem, hq, _, heq, hall⟩
    · rw [h] at heq
      exact absurd heq (by simp)
    · rw [h] at heq
      have h2 : u2 = u := (Option.some.inj heq).symm
      subst h2
      exact ⟨q, hq, hmem, hall⟩

lemma parseSrcset_ne_empty {s u : String} (h : parseSrcset s = some u) :
    u ≠ "" := by
  rcases parseSrcset_max s u h with ⟨q, _, hmem, _⟩
  exact parseSrcsetEntries_url_ne s (some q, u) hmem

/-- A resolved srcset dominates the rest of the `processImgTag` priority
chain. -/
lemma imgBestUrl_of_srcset (el : Elem) (u : String)
    (h : parseSrcset (imgSrcsetArg el) = some u) : imgBestUrl el = u := by
  unfold imgBestUrl
  rw [h]
  simp [jsOr, Option.getD, parseSrcset_ne_empty h]

end Detector

/-- A concrete `<img>` snapshot whose srcset resolves, used to witness
the priority of the srcset result over currentSrc, data attributes and
src. -/
def c7Img : Detector.Elem :=
  { eid := 1, tag := "IMG", attrs := [("data-src", "lazy.jpg")]
    parentTag := "BODY", sibImg := none
    srcsetProp := "a.jpg 400w, b.jpg 800w"
    currentSrc := "cur.jpg", srcProp := "plain.jpg"
    natW := 100, natH := 100, w := 100, h := 100
    videoW := 0, videoH := 0, offsetW := 0, offsetH := 0
    alt := "", title := ""
    rectW := Detector.natF 0, rectH := Detector.natF 0
    canvasW := 0, canvasH := 0, canvasDataUrl := none
    svgSerialized := none, bgImage := none
    closestContentHref := "", sourceChildren := [] }

/-- Claim C7: the srcset resolver picks the entry with the highest
numeric descriptor — width descriptors count their integer value,
density descriptors their float value weighted by 1000 — so
"a.jpg 400w, b.jpg 800w" resolves to b.jpg and "a.jpg 1x, b.jpg 2x"
resolves to b.jpg; in general the resolved URL is the URL of an entry
whose value no entry exceeds; and in processImgTag a resolved srcset
takes priority over currentSrc, the lazy-load data attributes and the
plain src. -/
theorem C7_srcset_resolution :
    (Detector.parseSrcset ("a.jpg 400w, b.jpg 800w") = some ("b.jpg")) ∧
    (Detector.parseSrcset ("a.jpg 1x, b.jpg 2x") = some ("b.jpg")) ∧
    (Detector.descriptorValue (("800w").toList)
        = some { num := 800, den := 1 } ∧
      Detector.descriptorValue (("2x").toList)
        = some { num := 2000, den := 1 }) ∧
    (∀ s u, Detector.parseSrcset s = some u →
      ∃ q, 0 < q.den ∧ (some q, u) ∈ Detector.parseSrcsetEntries s ∧
        ∀ p ∈ Detector.parseSrcsetEntries s, Detector.optGT p.1 q = false) ∧
    (∀ el u, Detector.parseSrcset (Detector.imgSrcsetArg el) = some u →
      Detector.imgBestUrl el = u) := by
  refine ⟨by decide, by decide, ⟨by decide, by decide⟩, ?_, ?_⟩
  · exact Detector.parseSrcset_max
  · exact fun el u h => Detector.imgBestUrl_of_srcset el u h

theorem C7_srcset_resolution_witness :
    (∃ q, 0 < q.den
      ∧ (some q, "b.jpg") ∈ Detector.parseSrcsetEntries ("a.jpg 400w, b.jpg 800w")
      ∧ ∀ p ∈ Detector.parseSrcsetEntries ("a.jpg 400w, b.jpg 800w"),
          Detector.optGT p.1 q = false) ∧
    Detector.imgBestUrl c7Img = "b.jpg" :=
  ⟨C7_srcset_resolution.2.2.2.1 ("a.jpg 400w, b.jpg 800w") ("b.jpg") (by decide),
   C7_srcset_resolution.2.2.2.2 c7Img ("b.jpg") (by decide)⟩

namespace Detector

lemma ssGet_ssSet (s : List (Nat × String)) (k : Nat) (v : String) :
    ssGet (ssSet s k v) k = some v := by
  induction s with
  | nil => simp [ssSet, ssGet]
  | cons hd tl ih =>
    obtain ⟨k0, v0⟩ := hd
    by_cases h : k0 = k <;> simp [ssSet, ssGet, h, ih]

lemma ssGet_ssSet_ne (s : List (Nat × String)) (k : Nat) (v : String)
    (e : Nat) (h : k ≠ e) : ssGet (ssSet s k v) e = ssGet s e := by
  induction s with
  | nil => simp [ssSet, ssGet, h]
  | cons hd tl ih =>
    obtain ⟨k0, v0⟩ := hd
    by_cases h0 : k0 = k
    · subst h0
      simp [ssSet, ssGet, h]
    · simp [ssSet, ssGet, h0, ih]

lemma natContains_cons (a : Nat) (l : List Nat) (e : Nat) :
    (a :: l).contains e = ((e == a) || l.contains e) := by
  cases h : e == a <;> simp_all [List.contains]

/-- An element the detector will skip on a rescan: marked seen, and its
source key either empty or matching the recorded one (the negation of the
re-process guard on line 61). -/
def stable (st : DetState) (el : Elem) : Prop :=
  st.seen.contains el.eid = true ∧
    (getSrcKey el = "" ∨ ssGet st.seenSrc el.eid = some (getSrcKey el))

lemma pictureStep_pres (env : PageEnv) (sv : SourceView) (s : DetState)
    (e : Nat) (h : s.seen.contains e = true) :
    (pictureStep env s sv).seen.contains e = true ∧
    ssGet (pictureStep env s sv).seenSrc e = ssGet s.seenSrc e := by
  unfold pictureStep
  cases hs : s.seen.contains sv.eid with
  | true =>
    rw [if_pos rfl]
    exact ⟨h, rfl⟩
  | false =>
    have hne : sv.eid ≠ e := by
      intro hEq
      rw [hEq, h] at hs
      cases hs
    rw [if_neg (by simp)]
    refine ⟨?_, ssGet_ssSet_ne _ _ _ _ hne⟩
    have h' : e ∈ s.seen := by simpa using h
    simp [h']

lemma pictureFold_pres (env : PageEnv) (svs : List SourceView)
    (s : DetState) (e : Nat) (h : s.seen.contains e = true) :
    (svs.foldl (pictureStep env) s).seen.contains e = true ∧
    ssGet (svs.foldl (pictureStep env) s).seenSrc e = ssGet s.seenSrc e := by
  induction svs generalizing s with
  | nil => exact ⟨h, rfl⟩
  | cons hd tl ih =>
    obtain ⟨h1, h2⟩ := pictureStep_pres env hd s e h
    obtain ⟨h3, h4⟩ := ih (pictureStep env s hd) h1
    exact ⟨h3, h4.trans h2⟩

end Detector

namespace Detector

lemma processNode_pres (env : PageEnv) (el : Elem) (st : DetState) (e : Nat)
    (h : st.seen.contains e = true) (hne : e ≠ el.eid) :
    (processNode env el st).seen.contains e = true ∧
    ssGet (processNode env el st).seenSrc e = ssGet st.seenSrc e := by
  have hkne : el.eid ≠ e := Ne.symm hne
  have hmem : e ∈ st.seen := by simpa using h
  unfold processNode
  cases hseen : st.seen.contains el.eid with
  | true =>
    rw [if_pos rfl]
    by_cases hquiet : (getSrcKey el ≠ "" &&
        ssGet st.seenSrc el.eid ≠ some (getSrcKey el) : Bool) = true
    · rw [if_pos hquiet]
      by_cases hI : el.tag = "IMG" <;> by_cases hS : el.tag = "SOURCE" <;>
        by_cases hV : el.tag = "VIDEO" <;>
        simp [hI, hS, hV, h, hmem, ssGet_ssSet_ne _ _ _ _ hkne]
    · rw [if_neg hquiet]
      exact ⟨h, rfl⟩
  | false =>
    rw [if_neg (by simp)]
    by_cases hI : el.tag = "IMG"
    · simp +decide [hI, h, hmem, natContains_cons, ssGet_ssSet_ne _ _ _ _ hkne, CSS_BG_TAGS, OB.CUSTOM_PLAYER_TAGS]
    · by_cases hP : el.tag = "PICTURE"
      · have h0 : (DetState.mk (el.eid :: st.seen) st.seenSrc
            st.mediaMap).seen.contains e = true := by
          rw [natContains_cons, h]
          simp
        obtain ⟨hA, hB⟩ := pictureFold_pres env el.sourceChildren
          (DetState.mk (el.eid :: st.seen) st.seenSrc st.mediaMap) e h0
        simp only [hI, hP, processPictureTag] at *
        simp +decide
        exact ⟨by simpa using hA, hB⟩
      · by_cases hS : el.tag = "SOURCE"
        · simp +decide [hI, hP, hS, h, hmem, natContains_cons,
            ssGet_ssSet_ne _ _ _ _ hkne, CSS_BG_TAGS, OB.CUSTOM_PLAYER_TAGS]
        · by_cases hG : el.tag = "SVG"
          · simp +decide [hI, hP, hS, hG, h, hmem, natContains_cons, CSS_BG_TAGS, OB.CUSTOM_PLAYER_TAGS]
          · by_cases hC : el.tag = "CANVAS"
            · simp +decide [hI, hP, hS, hG, hC, h, hmem, natContains_cons, CSS_BG_TAGS, OB.CUSTOM_PLAYER_TAGS]
            · by_cases hV : el.tag = "VIDEO"
              · simp +decide [hI, hP, hS, hG, hC, hV, h, hmem, natContains_cons,
                  ssGet_ssSet_ne _ _ _ _ hkne, CSS_BG_TAGS, OB.CUSTOM_PLAYER_TAGS]
              · cases hCu : OB.CUSTOM_PLAYER_TAGS.contains el.tag <;>
                  cases hBg : CSS_BG_TAGS.contains el.tag <;>
                  simp [hI, hP, hS, hG, hC, hV, hCu, hBg, h, hmem, natContains_cons]

end Detector

namespace Detector

lemma processNode_self_stable (env : PageEnv) (el : Elem) (st : DetState) :
    stable (processNode env el st) el := by
  unfold stable processNode
  cases hseen : st.seen.contains el.eid with
  | true =>
    have hseenMem : el.eid ∈ st.seen := by simpa using hseen
    rw [if_pos rfl]
    by_cases hquiet : (getSrcKey el ≠ "" &&
        ssGet st.seenSrc el.eid ≠ some (getSrcKey el) : Bool) = true
    · rw [if_pos hquiet]
      by_cases hI : el.tag = "IMG" <;> by_cases hS : el.tag = "SOURCE" <;>
        by_cases hV : el.tag = "VIDEO" <;>
        simp [hI, hS, hV, hseenMem, ssGet_ssSet]
    · rw [if_neg hquiet]
      refine ⟨hseen, ?_⟩
      by_contra hc
      push_neg at hc
      exact hquiet (by simp [hc.1, hc.2])
  | false =>
    rw [if_neg (by simp)]
    by_cases hI : el.tag = "IMG"
    · simp +decide [hI, natContains_cons, ssGet_ssSet,
        CSS_BG_TAGS, OB.CUSTOM_PLAYER_TAGS]
    · by_cases hP : el.tag = "PICTURE"
      · have h0 : (DetState.mk (el.eid :: st.seen) st.seenSrc
            st.mediaMap).seen.contains el.eid = true := by
          rw [natContains_cons]
          simp
        obtain ⟨hA, _⟩ := pictureFold_pres env el.sourceChildren
          (DetState.mk (el.eid :: st.seen) st.seenSrc st.mediaMap) el.eid h0
        have hkey : getSrcKey el = "" := by
          simp [getSrcKey, hP]
        refine ⟨?_, Or.inl hkey⟩
        simp only [hI, hP, processPictureTag] at *
        simp +decide
        simpa using hA
      · by_cases hS : el.tag = "SOURCE"
        · simp +decide [hI, hP, hS, natContains_cons, ssGet_ssSet,
            CSS_BG_TAGS, OB.CUSTOM_PLAYER_TAGS]
        · by_cases hG : el.tag = "SVG"
          · have hkey : getSrcKey el = "" := by
              simp [getSrcKey, hI, hS, hG]
            simp +decide [hI, hP, hS, hG, hkey, natContains_cons,
              CSS_BG_TAGS, OB.CUSTOM_PLAYER_TAGS]
          · by_cases hC : el.tag = "CANVAS"
            · have hkey : getSrcKey el = "" := by
                simp [getSrcKey, hI, hS, hC]
              simp +decide [hI, hP, hS, hG, hC, hkey, natContains_cons,
                CSS_BG_TAGS, OB.CUSTOM_PLAYER_TAGS]
            · by_cases hV : el.tag = "VIDEO"
              · simp +decide [hI, hP, hS, hG, hC, hV, natContains_cons,
                  ssGet_ssSet, CSS_BG_TAGS, OB.CUSTOM_PLAYER_TAGS]
              · have hkey : getSrcKey el = "" := by
                  simp [getSrcKey, hI, hS, hV]
                cases hCu : OB.CUSTOM_PLAYER_TAGS.contains el.tag <;>
                  cases hBg : CSS_BG_TAGS.contains el.tag <;>
                  simp [hI, hP, hS, hG, hC, hV, hCu, hBg, hkey,
                    natContains_cons]

lemma processNode_stable_noop (env : PageEnv) (el : Elem) (st : DetState)
    (hst : stable st el) : processNode env el st = st := by
  obtain ⟨h1, h2⟩ := hst
  unfold processNode
  rw [if_pos h1]
  have hb : (getSrcKey el ≠ "" &&
      ssGet st.seenSrc el.eid ≠ some (getSrcKey el) : Bool) = false := by
    rcases h2 with h2 | h2 <;> simp [h2]
  rw [if_neg (by rw [hb]; simp)]

end Detector

namespace Detector

lemma foldNodes_pres_stable (env : PageEnv) (tr : List Elem) (st : DetState)
    (el0 : Elem) (h : stable st el0) (hni : el0.eid ∉ tr.map Elem.eid) :
    stable (tr.foldl (fun s e => processNode env e s) st) el0 := by
  induction tr generalizing st with
  | nil => exact h
  | cons hd tl ih =>
    have hni' : el0.eid ≠ hd.eid ∧ el0.eid ∉ tl.map Elem.eid := by
      simpa using hni
    obtain ⟨hA, hB⟩ := processNode_pres env hd st el0.eid h.1 hni'.1
    rw [List.foldl_cons]
    exact ih (processNode env hd st)
      ⟨hA, h.2.imp id (fun hr => hB.trans hr)⟩ hni'.2

lemma foldNodes_all_stable (env : PageEnv) (tr : List Elem) (st : DetState)
    (hnd : (tr.map Elem.eid).Nodup) :
    ∀ el ∈ tr, stable (tr.foldl (fun s e => processNode env e s) st) el := by
  induction tr generalizing st with
  | nil => intro el h; cases h
  | cons hd tl ih =>
    intro el hel
    rw [List.foldl_cons]
    rw [List.map_cons, List.nodup_cons] at hnd
    rcases List.mem_cons.mp hel with rfl | hel'
    · exact foldNodes_pres_stable env tl _ el
        (processNode_self_stable env el st) hnd.1
    · exact ih (processNode env hd st) hnd.2 el hel'

lemma foldNodes_noop (env : PageEnv) (st : DetState) :
    ∀ (tr : List Elem), (∀ el ∈ tr, stable st el) →
      tr.foldl (fun s e => processNode env e s) st = st
  | [], _ => rfl
  | hd :: tl, hs => by
    rw [List.foldl_cons, processNode_stable_noop env hd st (hs hd (by simp))]
    exact foldNodes_noop env st tl (fun el h => hs el (List.mem_cons_of_mem _ h))

lemma mmGet_mmSet (m : MediaMap) (k : String) (v : Item) (e : String) :
    mmGet (mmSet m k v) e = if k = e then some v else mmGet m e := by
  induction m with
  | nil => simp [mmSet, mmGet]
  | cons hd tl ih =>
    obtain ⟨k0, v0⟩ := hd
    by_cases h0 : k0 = k
    · subst h0
      by_cases h1 : k0 = e <;> simp [mmSet, mmGet, h1]
    · by_cases h1 : k0 = e
      · subst h1
        have hke : ¬k = k0 := fun hh => h0 hh.symm
        simp [mmSet, mmGet, h0, hke]
      · simp [mmSet, mmGet, h0, h1, ih]

lemma mmHas_mmSet_self (m : MediaMap) (k : String) (v : Item) :
    mmHas (mmSet m k v) k = true := by
  unfold mmHas
  rw [mmGet_mmSet]
  simp

lemma mmHas_mmSet_mono (m : MediaMap) (k : String) (v : Item) (e : String)
    (h : mmHas m e = true) : mmHas (mmSet m k v) e = true := by
  unfold mmHas at *
  rw [mmGet_mmSet]
  by_cases hke : k = e <;> simp [hke, h]

lemma mmHas_guardedInsert_self (m : MediaMap) (c : String × Item) :
    mmHas (guardedInsert m c) c.1 = true := by
  unfold guardedInsert
  cases h : mmHas m c.1 with
  | true => rw [if_pos rfl]; exact h
  | false => rw [if_neg (by simp)]; exact mmHas_mmSet_self m c.1 c.2

lemma mmHas_guardedInsert_mono (m : MediaMap) (c : String × Item)
    (e : String) (h : mmHas m e = true) :
    mmHas (guardedInsert m c) e = true := by
  unfold guardedInsert
  split
  · exact h
  · exact mmHas_mmSet_mono m c.1 c.2 e h

lemma metaFold_mono (cands : List (String × Item)) (m : MediaMap)
    (e : String) (h : mmHas m e = true) :
    mmHas (cands.foldl guardedInsert m) e = true := by
  induction cands generalizing m with
  | nil => exact h
  | cons hd tl ih =>
    rw [List.foldl_cons]
    exact ih (guardedInsert m hd) (mmHas_guardedInsert_mono m hd e h)

lemma metaFold_has (cands : List (String × Item)) (m : MediaMap) :
    ∀ c ∈ cands, mmHas (cands.foldl guardedInsert m) c.1 = true := by
  induction cands generalizing m with
  | nil => intro c h; cases h
  | cons hd tl ih =>
    intro c hc
    rw [List.foldl_cons]
    rcases List.mem_cons.mp hc with rfl | hc'
    · exact metaFold_mono tl _ c.1 (mmHas_guardedInsert_self m c)
    · exact ih (guardedInsert m hd) c hc'

lemma metaFold_noop (cands : List (String × Item)) :
    ∀ (m : MediaMap), (∀ c ∈ cands, mmHas m c.1 = true) →
      cands.foldl guardedInsert m = m := by
  induction cands with
  | nil => intro m _; rfl
  | cons hd tl ih =>
    intro m hs
    have h1 : guardedInsert m hd = m := by
      unfold guardedInsert
      rw [if_pos (hs hd (by simp))]
    rw [List.foldl_cons, h1]
    exact ih m (fun c hc => hs c (List.mem_cons_of_mem _ hc))

lemma processMetaTags_idem (env : PageEnv) (m : MediaMap) :
    processMetaTags env (processMetaTags env m) = processMetaTags env m := by
  unfold processMetaTags
  exact metaFold_noop env.metaCands _ (metaFold_has env.metaCands m)

end Detector

/-- Claim C8: scanning twice in succession over an unchanged DOM grows
nothing: an already-seen element whose source key is unchanged (or
empty) is skipped outright by processNode, and — provided element
identities in the walker trace are distinct, as DOM object identities
are — a second scan returns the state of the first unchanged, media
inventory included. -/
theorem C8_scan_idempotent :
    (∀ (env : Detector.PageEnv) (el : Detector.Elem) (st : Detector.DetState),
      Detector.stable st el → Detector.processNode env el st = st) ∧
    (∀ (env : Detector.PageEnv) (trace : List Detector.Elem)
        (st : Detector.DetState),
      (trace.map Detector.Elem.eid).Nodup →
      Detector.scanDoc env trace (Detector.scanDoc env trace st)
        = Detector.scanDoc env trace st) := by
  constructor
  · exact fun env el st h => Detector.processNode_stable_noop env el st h
  · intro env trace st hnd
    have hstab := Detector.foldNodes_all_stable env trace st hnd
    unfold Detector.scanDoc
    have hfix : trace.foldl (fun s e => Detector.processNode env e s)
        { trace.foldl (fun s e => Detector.processNode env e s) st with
          mediaMap := Detector.processMetaTags env
            (trace.foldl (fun s e => Detector.processNode env e s) st).mediaMap }
        = { trace.foldl (fun s e => Detector.processNode env e s) st with
            mediaMap := Detector.processMetaTags env
              (trace.foldl (fun s e => Detector.processNode env e s) st).mediaMap } := by
      apply Detector.foldNodes_noop
      intro el hel
      exact ⟨(hstab el hel).1, (hstab el hel).2⟩
    rw [hfix]
    simp [Detector.processMetaTags_idem]

/-- A non-media element and a state that has already seen it. -/
def c8El : Detector.Elem :=
  { eid := 5, tag := "DIV", attrs := [], parentTag := "BODY", sibImg := none
    srcsetProp := "", currentSrc := "", srcProp := ""
    natW := 0, natH := 0, w := 0, h := 0
    videoW := 0, videoH := 0, offsetW := 0, offsetH := 0
    alt := "", title := ""
    rectW := Detector.natF 0, rectH := Detector.natF 0
    canvasW := 0, canvasH := 0, canvasDataUrl := none
    svgSerialized := none, bgImage := none
    closestContentHref := "", sourceChildren := [] }

def c8Env : Detector.PageEnv :=
  { norm := fun u => u, encodeURI := fun u => u, locationHref := ""
    metaCands := [] }

def c8St : Detector.DetState :=
  { seen := [5], seenSrc := [], mediaMap := [] }

theorem C8_scan_idempotent_witness :
    Detector.processNode c8Env c8El c8St = c8St ∧
    Detector.scanDoc c8Env [c8El]
        (Detector.scanDoc c8Env [c8El] Detector.emptyDet)
      = Detector.scanDoc c8Env [c8El] Detector.emptyDet :=
  ⟨C8_scan_idempotent.1 c8Env c8El c8St ⟨rfl, Or.inl rfl⟩,
   C8_scan_idempotent.2 c8Env [c8El] Detector.emptyDet (by simp)⟩
